import Mathlib

/-!
# CVIPFS backup / restore pipeline

A shallow embedding of `backend/src/app.js` (the Express handlers `/backup`, `/restore`,
`/verifyMetadata`, `/decryptFile` and their helpers) together with the parts of the JavaScript
runtime the handlers rely on:

* hex encoding and decoding of `Buffer`s, SHA-256 and `JSON.stringify` / `JSON.parse` are
  embedded as executable functions;
* AES-256-CBC, RSA-SHA256 and the Helia block store are library calls, taken as a record of
  functions (`Prims`), with the laws a theorem needs stated as hypotheses;
* the file system under `uploads/` is a finite map from paths to contents.

JavaScript strings are sequences of UTF-16 code units, buffers are sequences of bytes.
-/

/-! ## Strings, buffers and hex -/

/-- A JavaScript string: its UTF-16 code units. -/
abbrev JSString := List Nat

abbrev Byte := Fin 256

/-- A Node `Buffer`. -/
abbrev Bytes := List Byte

/-- The code units of a string literal (used for ASCII literals only). -/
def js (s : String) : JSString := s.toList.map Char.toNat

/-- Lowercase hex digit of a nibble, as `buf.toString('hex')` prints it. -/
def hexDigit (n : Nat) : Nat := if n < 10 then 48 + n else 87 + n

/-- Value of a hex digit character, either case; none for any other code unit. -/
def unhex (c : Nat) : Option Nat :=
  if 48 ≤ c ∧ c ≤ 57 then some (c - 48)
  else if 97 ≤ c ∧ c ≤ 102 then some (c - 87)
  else if 65 ≤ c ∧ c ≤ 70 then some (c - 55)
  else none

/-- Model of `buf.toString('hex')`. -/
def hexEncode : Bytes → JSString
  | [] => []
  | b :: rest => hexDigit (b.val / 16) :: hexDigit (b.val % 16) :: hexEncode rest

/-- The hex digit Node's hex decoder reads from a code unit of a string: the unit is narrowed to
its low 8 bits before the digit is looked up, so a unit above 255 whose low byte is a hex digit
character counts as that digit. -/
def unhexUnit (c : Nat) : Option Nat := unhex (c % 256)

/-- Model of `Buffer.from(str, 'hex')`: pairs of hex digits are decoded until the first pair that
is not two hex digits; a trailing single character is dropped. -/
def hexDecode : JSString → Bytes
  | a :: b :: rest =>
    match unhexUnit a, unhexUnit b with
    | some x, some y => Fin.ofNat (x * 16 + y) :: hexDecode rest
    | _, _ => []
  | _ => []

def isDigit (c : Nat) : Bool := decide (48 ≤ c ∧ c ≤ 57)

/-- Lowercase hex digit characters `0-9a-f`. -/
def isLowerHex (c : Nat) : Bool := decide ((48 ≤ c ∧ c ≤ 57) ∨ (97 ≤ c ∧ c ≤ 102))

def decDigits : Nat → Nat → JSString
  | 0, _ => []
  | f + 1, n => if n < 10 then [48 + n] else decDigits f (n / 10) ++ [48 + n % 10]

/-- Decimal text of a natural number (`String(n)` for a non-negative safe integer). -/
def natToDec (n : Nat) : JSString := decDigits (n + 1) n

/-! ## SHA-256 (`crypto.createHash('sha256')`) -/

namespace SHA256

def K : List Nat := [
  0x428a2f98, 0x71374491, 0xb5c0fbcf, 0xe9b5dba5, 0x3956c25b, 0x59f111f1, 0x923f82a4, 0xab1c5ed5,
  0xd807aa98, 0x12835b01, 0x243185be, 0x550c7dc3, 0x72be5d74, 0x80deb1fe, 0x9bdc06a7, 0xc19bf174,
  0xe49b69c1, 0xefbe4786, 0x0fc19dc6, 0x240ca1cc, 0x2de92c6f, 0x4a7484aa, 0x5cb0a9dc, 0x76f988da,
  0x983e5152, 0xa831c66d, 0xb00327c8, 0xbf597fc7, 0xc6e00bf3, 0xd5a79147, 0x06ca6351, 0x14292967,
  0x27b70a85, 0x2e1b2138, 0x4d2c6dfc, 0x53380d13, 0x650a7354, 0x766a0abb, 0x81c2c92e, 0x92722c85,
  0xa2bfe8a1, 0xa81a664b, 0xc24b8b70, 0xc76c51a3, 0xd192e819, 0xd6990624, 0xf40e3585, 0x106aa070,
  0x19a4c116, 0x1e376c08, 0x2748774c, 0x34b0bcb5, 0x391c0cb3, 0x4ed8aa4a, 0x5b9cca4f, 0x682e6ff3,
  0x748f82ee, 0x78a5636f, 0x84c87814, 0x8cc70208, 0x90befffa, 0xa4506ceb, 0xbef9a3f7, 0xc67178f2]

/-- Truncation to a 32-bit word. -/
def w32 (x : Nat) : Nat := x % 4294967296

def rotr (x n : Nat) : Nat := w32 ((x >>> n) ||| (x <<< (32 - n)))

def ch (x y z : Nat) : Nat := (x &&& y) ^^^ ((4294967295 - x) &&& z)
def maj (x y z : Nat) : Nat := (x &&& y) ^^^ (x &&& z) ^^^ (y &&& z)
def bsig0 (x : Nat) : Nat := rotr x 2 ^^^ rotr x 13 ^^^ rotr x 22
def bsig1 (x : Nat) : Nat := rotr x 6 ^^^ rotr x 11 ^^^ rotr x 25
def ssig0 (x : Nat) : Nat := rotr x 7 ^^^ rotr x 18 ^^^ (x >>> 3)
def ssig1 (x : Nat) : Nat := rotr x 17 ^^^ rotr x 19 ^^^ (x >>> 10)

/-- The eight working words. -/
structure State where
  a : Nat
  b : Nat
  c : Nat
  d : Nat
  e : Nat
  f : Nat
  g : Nat
  h : Nat

def init : State :=
  ⟨0x6a09e667, 0xbb67ae85, 0x3c6ef372, 0xa54ff53a, 0x510e527f, 0x9b05688c, 0x1f83d9ab, 0x5be0cd19⟩

/-- Padding: the byte 0x80, zero bytes up to 56 modulo 64, then the bit length on 8 bytes. -/
def pad (msg : Bytes) : List Nat :=
  let l := msg.length
  let zeros := (119 - l % 64) % 64
  msg.map Fin.val ++ [128] ++ List.replicate zeros 0 ++
    (List.range 8).map (fun i => (l * 8) >>> (8 * (7 - i)) % 256)

/-- The first `n` big-endian words of a block. -/
def wordsOf : Nat → List Nat → List Nat
  | 0, _ => []
  | n + 1, b0 :: b1 :: b2 :: b3 :: rest =>
      (b0 * 16777216 + b1 * 65536 + b2 * 256 + b3) :: wordsOf n rest
  | _ + 1, _ => []

/-- Message schedule, most recent word first. -/
def extend : Nat → List Nat → List Nat
  | 0, ws => ws
  | n + 1, ws =>
      let g := fun i => ws.getD i 0
      extend n (w32 (ssig1 (g 1) + g 6 + ssig0 (g 14) + g 15) :: ws)

def round (s : State) (kw : Nat × Nat) : State :=
  let t1 := s.h + bsig1 s.e + ch s.e s.f s.g + kw.1 + kw.2
  let t2 := bsig0 s.a + maj s.a s.b s.c
  ⟨w32 (t1 + t2), s.a, s.b, s.c, w32 (s.d + t1), s.e, s.f, s.g⟩

def compress (s : State) (block : List Nat) : State :=
  let ws := (extend 48 (wordsOf 16 block).reverse).reverse
  let r := (K.zip ws).foldl round s
  ⟨w32 (s.a + r.a), w32 (s.b + r.b), w32 (s.c + r.c), w32 (s.d + r.d),
   w32 (s.e + r.e), w32 (s.f + r.f), w32 (s.g + r.g), w32 (s.h + r.h)⟩

def blocks : Nat → State → List Nat → State
  | 0, s, _ => s
  | n + 1, s, bs => blocks n (compress s (bs.take 64)) (bs.drop 64)

def byteAt (x i : Nat) : Byte := Fin.ofNat (x >>> (8 * i))

def wordBytes (x : Nat) : Bytes := [byteAt x 3, byteAt x 2, byteAt x 1, byteAt x 0]

/-- The 32-byte digest of a buffer. -/
def digest (msg : Bytes) : Bytes :=
  let p := pad msg
  let s := blocks (p.length / 64) init p
  wordBytes s.a ++ wordBytes s.b ++ wordBytes s.c ++ wordBytes s.d ++
  wordBytes s.e ++ wordBytes s.f ++ wordBytes s.g ++ wordBytes s.h

end SHA256

/-- Model of `crypto.createHash('sha256').update(buffer).digest('hex')`. -/
def sha256Hex (buffer : Bytes) : JSString := hexEncode (SHA256.digest buffer)

/-! ## JSON values, `JSON.stringify` and `JSON.parse` -/

/-- A JSON value as JavaScript holds it after `JSON.parse`. Numbers are integers (the only
numbers the program produces); an object is its list of own properties in enumeration order. -/
inductive Json where
  | null
  | bool (b : Bool)
  | num (n : Int)
  | str (s : JSString)
  | arr (l : List Json)
  | obj (m : List (JSString × Json))

/-- Why `JSON.parse` gives no value: the text is not JSON (a `SyntaxError` is thrown), or it
contains a number token the integer model does not cover (a fraction, an exponent, `-0`, or an
integer beyond 2^53 - 1), or the recursion budget ran out. -/
inductive PErr where
  | malformed
  | outside
  deriving DecidableEq

/-- The six code units of a `u` escape, with four lowercase hex digits. -/
def unicodeEscape (c : Nat) : JSString :=
  [92, 117, hexDigit (c / 4096 % 16), hexDigit (c / 256 % 16), hexDigit (c / 16 % 16), hexDigit (c % 16)]

/-- Leading and trailing surrogate code units. -/
def isLead (c : Nat) : Bool := decide (55296 ≤ c ∧ c ≤ 56319)
def isTrail (c : Nat) : Bool := decide (56320 ≤ c ∧ c ≤ 57343)

/-- `QuoteJSONString` on one code unit that is not a surrogate: the short escapes, a `u` escape
for the other control characters, the unit itself otherwise. -/
def quoteUnit (c : Nat) : JSString :=
  if c = 8 then [92, 98]
  else if c = 9 then [92, 116]
  else if c = 10 then [92, 110]
  else if c = 12 then [92, 102]
  else if c = 13 then [92, 114]
  else if c = 34 then [92, 34]
  else if c = 92 then [92, 92]
  else if c < 32 then unicodeEscape c
  else [c]

/-- `QuoteJSONString` without the enclosing quotes: a surrogate pair is copied, a lone surrogate
is escaped. -/
def quoteBody : JSString → JSString
  | [] => []
  | c :: rest =>
    if isLead c then
      match rest with
      | d :: rest2 =>
        if isTrail d then c :: d :: quoteBody rest2 else unicodeEscape c ++ quoteBody (d :: rest2)
      | [] => unicodeEscape c
    else if isTrail c then unicodeEscape c ++ quoteBody rest
    else quoteUnit c ++ quoteBody rest

/-- `QuoteJSONString`. -/
def quote (s : JSString) : JSString := 34 :: (quoteBody s ++ [34])

/-- `Number::toString` for a safe integer. -/
def intToDec (n : Int) : JSString :=
  if n < 0 then 45 :: natToDec n.natAbs else natToDec n.natAbs

mutual
/-- Model of `JSON.stringify(value)` with no indentation: properties and elements in
enumeration order, separated by commas. -/
def stringify : Json → JSString
  | .null => js "null"
  | .bool true => js "true"
  | .bool false => js "false"
  | .num n => intToDec n
  | .str s => quote s
  | .arr l => 91 :: stringifyElems l
  | .obj m => 123 :: stringifyMembers m
def stringifyElems : List Json → JSString
  | [] => [93]
  | [v] => stringify v ++ [93]
  | v :: w :: vs => stringify v ++ 44 :: stringifyElems (w :: vs)
def stringifyMembers : List (JSString × Json) → JSString
  | [] => [125]
  | [(k, v)] => quote k ++ 58 :: (stringify v ++ [125])
  | (k, v) :: p :: ms => quote k ++ 58 :: (stringify v ++ 44 :: stringifyMembers (p :: ms))
end

/-- JSON white space: space, tab, line feed, carriage return. -/
def isWs (c : Nat) : Bool := c = 32 || c = 9 || c = 10 || c = 13

/-- The text after leading white space. -/
def skipWs : JSString → JSString
  | [] => []
  | c :: rest => if isWs c then skipWs rest else c :: rest

/-- The code unit a one-letter escape stands for. -/
def unescape (e : Nat) : Option Nat :=
  if e = 34 then some 34
  else if e = 92 then some 92
  else if e = 47 then some 47
  else if e = 98 then some 8
  else if e = 102 then some 12
  else if e = 110 then some 10
  else if e = 114 then some 13
  else if e = 116 then some 9
  else none

/-- The result of a parsing step: a value and the rest of the text. -/
abbrev Parse (α : Type) := Except PErr (α × JSString)

/-- A code unit put in front of the string parsed after it. -/
def consUnit (c : Nat) : Parse JSString → Parse JSString
  | .ok (s, rest) => .ok (c :: s, rest)
  | .error e => .error e

inductive StrStep where
  | close (rest : JSString)
  | unit (c : Nat) (rest : JSString)
  | bad

/-- One step inside a string literal: the closing quote, an escape sequence or a verbatim
code unit. -/
def strStep : JSString → StrStep
  | [] => .bad
  | c :: rest =>
    if c = 34 then .close rest
    else if c = 92 then
      match rest with
      | [] => .bad
      | e :: rest1 =>
        if e = 117 then
          match rest1 with
          | h1 :: h2 :: h3 :: h4 :: rest2 =>
            match unhex h1, unhex h2, unhex h3, unhex h4 with
            | some a, some b, some c2, some d => .unit (a * 4096 + b * 256 + c2 * 16 + d) rest2
            | _, _, _, _ => .bad
          | _ => .bad
        else
          match unescape e with
          | some u => .unit u rest1
          | none => .bad
    else if c < 32 then .bad
    else .unit c rest

/-- The string literal after its opening quote, with a budget of steps. -/
def parseStrBody : Nat → JSString → Parse JSString
  | 0, _ => .error .outside
  | f + 1, input =>
    match strStep input with
    | .bad => .error .malformed
    | .close rest => .ok ([], rest)
    | .unit c rest => consUnit c (parseStrBody f rest)

/-- A string literal after its opening quote. -/
def parseString (input : JSString) : Parse JSString := parseStrBody input.length.succ input

/-- The longest run of decimal digits, as a number. -/
def readDigits : Nat → JSString → Nat × JSString
  | acc, [] => (acc, [])
  | acc, c :: rest => if isDigit c then readDigits (acc * 10 + (c - 48)) rest else (acc, c :: rest)

/-- `Number.MAX_SAFE_INTEGER`. -/
def maxSafe : Nat := 9007199254740991

/-- The integer part of a number token: a single `0`, or digits that do not start with `0`. -/
def parseNat : JSString → Parse Nat
  | [] => .error .malformed
  | c :: rest =>
    if c = 48 then .ok (0, rest)
    else if isDigit c then .ok (readDigits (c - 48) rest)
    else .error .malformed

/-- The number value, when the token is an integer the model covers. -/
def finishNumber (neg : Bool) : Parse Nat → Parse Json
  | .error e => .error e
  | .ok (n, rest) =>
    match rest with
    | c :: _ =>
      if c = 46 ∨ c = 101 ∨ c = 69 then .error .outside
      else if maxSafe < n ∨ (neg = true ∧ n = 0) then .error .outside
      else .ok (.num (if neg then - (n : Int) else n), rest)
    | [] =>
      if maxSafe < n ∨ (neg = true ∧ n = 0) then .error .outside
      else .ok (.num (if neg then - (n : Int) else n), rest)

/-- The text after a given word, when the text starts with it. -/
def dropWord : JSString → JSString → Option JSString
  | [], rest => some rest
  | _ :: _, [] => none
  | p :: ps, c :: rest => if p = c then dropWord ps rest else none

/-- One of the words `true`, `false`, `null`. -/
def parseLiteral (word : JSString) (v : Json) (input : JSString) : Parse Json :=
  match dropWord word input with
  | some rest => .ok (v, rest)
  | none => .error .malformed

/-- After an element of an array: the closing bracket, or a comma and the next element. -/
def parseArrayRest (pv : JSString → Parse Json) : Nat → JSString → Parse (List Json)
  | 0, _ => .error .outside
  | f + 1, input =>
    match skipWs input with
    | [] => .error .malformed
    | c :: rest =>
      if c = 93 then .ok ([], rest)
      else if c = 44 then
        match pv rest with
        | .error e => .error e
        | .ok (v, rest1) =>
          match parseArrayRest pv f rest1 with
          | .error e => .error e
          | .ok (vs, rest2) => .ok (v :: vs, rest2)
      else .error .malformed

/-- After the opening bracket of an array. -/
def parseArray (pv : JSString → Parse Json) (input : JSString) : Parse (List Json) :=
  match skipWs input with
  | [] => .error .malformed
  | c :: rest =>
    if c = 93 then .ok ([], rest)
    else
      match pv (c :: rest) with
      | .error e => .error e
      | .ok (v, rest1) =>
        match parseArrayRest pv rest1.length.succ rest1 with
        | .error e => .error e
        | .ok (vs, rest2) => .ok (v :: vs, rest2)

/-- One member of an object: a string, a colon and a value. -/
def parseMember (pv : JSString → Parse Json) (input : JSString) : Parse (JSString × Json) :=
  match skipWs input with
  | [] => .error .malformed
  | c :: rest =>
    if c = 34 then
      match parseString rest with
      | .error e => .error e
      | .ok (k, rest1) =>
        match skipWs rest1 with
        | [] => .error .malformed
        | d :: rest2 =>
          if d = 58 then
            match pv rest2 with
            | .error e => .error e
            | .ok (v, rest3) => .ok ((k, v), rest3)
          else .error .malformed
    else .error .malformed

/-- After a member of an object: the closing brace, or a comma and the next member. -/
def parseObjectRest (pv : JSString → Parse Json) : Nat → JSString → Parse (List (JSString × Json))
  | 0, _ => .error .outside
  | f + 1, input =>
    match skipWs input with
    | [] => .error .malformed
    | c :: rest =>
      if c = 125 then .ok ([], rest)
      else if c = 44 then
        match parseMember pv rest with
        | .error e => .error e
        | .ok (kv, rest1) =>
          match parseObjectRest pv f rest1 with
          | .error e => .error e
          | .ok (kvs, rest2) => .ok (kv :: kvs, rest2)
      else .error .malformed

/-- After the opening brace of an object. -/
def parseObject (pv : JSString → Parse Json) (input : JSString) : Parse (List (JSString × Json)) :=
  match skipWs input with
  | [] => .error .malformed
  | c :: rest =>
    if c = 125 then .ok ([], rest)
    else
      match parseMember pv (c :: rest) with
      | .error e => .error e
      | .ok (kv, rest1) =>
        match parseObjectRest pv rest1.length.succ rest1 with
        | .error e => .error e
        | .ok (kvs, rest2) => .ok (kv :: kvs, rest2)

/-- Array index of a property key: a canonical decimal string below 2^32 - 1. -/
def arrayIndex (k : JSString) : Option Nat :=
  if k.all isDigit = true ∧ k ≠ [] then
    let n := (readDigits 0 k).1
    if natToDec n = k ∧ n < 4294967295 then some n else none
  else none

/-- Whether the object has an own property `k`. -/
def hasKey (m : List (JSString × Json)) (k : JSString) : Bool := m.any (fun p => p.1 = k)

/-- Assignment to an existing property: the value changes, the position does not. -/
def replaceProp (k : JSString) (v : Json) : List (JSString × Json) → List (JSString × Json)
  | [] => []
  | p :: m => if p.1 = k then (k, v) :: m else p :: replaceProp k v m

/-- A new array-index property goes among the index properties, in ascending order. -/
def insertIndexed (i : Nat) (k : JSString) (v : Json) : List (JSString × Json) → List (JSString × Json)
  | [] => [(k, v)]
  | p :: m =>
    match arrayIndex p.1 with
    | some j => if j < i then p :: insertIndexed i k v m else (k, v) :: p :: m
    | none => (k, v) :: p :: m

/-- Model of `obj[k] = v` (`CreateDataProperty`): an existing property keeps its place, a new
array index is sorted among the indices, any other new key goes last. -/
def setProp (m : List (JSString × Json)) (k : JSString) (v : Json) : List (JSString × Json) :=
  if hasKey m k then replaceProp k v m
  else
    match arrayIndex k with
    | some i => insertIndexed i k v m
    | none => m ++ [(k, v)]

/-- The object `JSON.parse` builds from the members of an object literal, in text order. -/
def mkObject (members : List (JSString × Json)) : Json :=
  .obj (members.foldl (fun m p => setProp m p.1 p.2) [])

/-- A JSON value, with a budget for the nesting depth. -/
def parseValue : Nat → JSString → Parse Json
  | 0, _ => .error .outside
  | f + 1, input =>
    match skipWs input with
    | [] => .error .malformed
    | c :: rest =>
      if c = 123 then
        match parseObject (parseValue f) rest with
        | .error e => .error e
        | .ok (ms, rest1) => .ok (mkObject ms, rest1)
      else if c = 91 then
        match parseArray (parseValue f) rest with
        | .error e => .error e
        | .ok (vs, rest1) => .ok (.arr vs, rest1)
      else if c = 34 then
        match parseString rest with
        | .error e => .error e
        | .ok (s, rest1) => .ok (.str s, rest1)
      else if c = 45 then finishNumber true (parseNat rest)
      else if isDigit c then finishNumber false (parseNat (c :: rest))
      else if c = 116 then parseLiteral (js "true") (.bool true) (c :: rest)
      else if c = 102 then parseLiteral (js "false") (.bool false) (c :: rest)
      else if c = 110 then parseLiteral (js "null") .null (c :: rest)
      else .error .malformed

/-- Model of `JSON.parse(text)`. -/
def parse (text : JSString) : Except PErr Json :=
  match parseValue text.length.succ text with
  | .error e => .error e
  | .ok (v, rest) =>
    match skipWs rest with
    | [] => .ok v
    | _ :: _ => .error .malformed

mutual
/-- Values on which the embedding of `JSON.parse` and `JSON.stringify` is exact: numbers are
safe integers, and object keys are pairwise distinct and are not array indices. -/
def Json.plain : Json → Bool
  | .null => true
  | .bool _ => true
  | .num n => decide (n.natAbs ≤ maxSafe)
  | .str _ => true
  | .arr l => plainElems l
  | .obj m =>
    decide ((m.map Prod.fst).Nodup) && m.all (fun p => (arrayIndex p.1).isNone) && plainMembers m
def plainElems : List Json → Bool
  | [] => true
  | v :: vs => v.plain && plainElems vs
def plainMembers : List (JSString × Json) → Bool
  | [] => true
  | p :: ms => p.2.plain && plainMembers ms
end

/-- What may follow a value inside a JSON text: nothing, a comma or a closing bracket. -/
def Delim : JSString → Prop
  | [] => True
  | c :: _ => c = 44 ∨ c = 93 ∨ c = 125

/-- Text of the elements after the first one, up to and including the closing bracket. -/
def elemsTail : List Json → JSString
  | [] => [93]
  | w :: ws => 44 :: (stringify w ++ elemsTail ws)

/-- Text of the members after the first one, up to and including the closing brace. -/
def membersTail : List (JSString × Json) → JSString
  | [] => [125]
  | p :: ms => 44 :: (quote p.1 ++ 58 :: (stringify p.2 ++ membersTail ms))

/-- One step of reading a decimal number, digit by digit. -/
def digitStep (a c : Nat) : Nat := a * 10 + (c - 48)

/-- The text does not start with a decimal digit. -/
def noDigitHead : JSString → Prop
  | [] => True
  | c :: _ => isDigit c = false

mutual
/-- Structural equality test on JSON values. -/
def Json.beq : Json → Json → Bool
  | .null, .null => true
  | .bool a, .bool b => a == b
  | .num a, .num b => a == b
  | .str a, .str b => a == b
  | .arr a, .arr b => beqElems a b
  | .obj a, .obj b => beqMembers a b
  | _, _ => false
def beqElems : List Json → List Json → Bool
  | [], [] => true
  | a :: as, b :: bs => Json.beq a b && beqElems as bs
  | _, _ => false
def beqMembers : List (JSString × Json) → List (JSString × Json) → Bool
  | [], [] => true
  | p :: ps, q :: qs => p.1 == q.1 && Json.beq p.2 q.2 && beqMembers ps qs
  | _, _ => false
end

mutual
theorem Json.beq_iff : ∀ (a b : Json), Json.beq a b = true ↔ a = b
  | .null, b => by cases b <;> simp [Json.beq]
  | .bool x, b => by cases b <;> simp [Json.beq]
  | .num x, b => by cases b <;> simp [Json.beq]
  | .str x, b => by cases b <;> simp [Json.beq]
  | .arr x, b => by
    cases b <;> simp [Json.beq]
    exact beqElems_iff x _
  | .obj x, b => by
    cases b <;> simp [Json.beq]
    exact beqMembers_iff x _
theorem beqElems_iff : ∀ (a b : List Json), beqElems a b = true ↔ a = b
  | [], b => by cases b <;> simp [beqElems]
  | x :: xs, b => by
    cases b with
    | nil => simp [beqElems]
    | cons y ys => simp [beqElems, Json.beq_iff x y, beqElems_iff xs ys]
theorem beqMembers_iff : ∀ (a b : List (JSString × Json)), beqMembers a b = true ↔ a = b
  | [], b => by cases b <;> simp [beqMembers]
  | x :: xs, b => by
    cases b with
    | nil => simp [beqMembers]
    | cons y ys =>
      simp [beqMembers, Json.beq_iff x.2 y.2, beqMembers_iff xs ys, Prod.ext_iff, and_assoc]
end

instance : DecidableEq Json := fun a b => decidable_of_iff _ (Json.beq_iff a b)

instance {ε α : Type} [DecidableEq ε] [DecidableEq α] : DecidableEq (Except ε α)
  | .ok a, .ok b => decidable_of_iff (a = b) (by simp)
  | .error a, .error b => decidable_of_iff (a = b) (by simp)
  | .ok _, .error _ => isFalse (by simp)
  | .error _, .ok _ => isFalse (by simp)

/-- Own property lookup `obj[k]` on the property list of an object. -/
def getProp (m : List (JSString × Json)) (k : JSString) : Option Json :=
  (m.find? (fun p => p.1 = k)).map Prod.snd

/-- Model of `delete obj[k]`. -/
def deleteProp (m : List (JSString × Json)) (k : JSString) : List (JSString × Json) :=
  m.filter (fun p => p.1 ≠ k)

/-! ## The environment of the handlers -/

/-- The library calls of `app.js` that are not embedded: AES-256-CBC through
`crypto.createCipheriv` / `createDecipheriv` (key, iv, data), RSA-SHA256 through
`crypto.createSign` / `createVerify` with the key pair read at start-up, and the Helia block
store through the UnixFS importer (given the path of the file and its content, it yields the
text of the CID) and exporter. A thrown error is its message. -/
structure Prims (σ : Type) where
  aesEncrypt : Bytes → Bytes → Bytes → Except JSString Bytes
  aesDecrypt : Bytes → Bytes → Bytes → Except JSString Bytes
  rsaSign : JSString → Except JSString Bytes
  rsaVerify : JSString → Bytes → Bool
  heliaAdd : σ → JSString → Bytes → Except JSString JSString × σ
  heliaGet : σ → JSString → Except JSString Bytes

/-- What one request draws from the clock and the random source: `crypto.randomBytes(32)`,
`crypto.randomBytes(16)`, `new Date().toISOString()` and `Date.now()`. `randomBytes(n)` returns
`n` bytes when it returns. -/
structure Ambient where
  randomKey : Except JSString Bytes
  randomIv : Except JSString Bytes
  isoTime : JSString
  nowMs : Nat
  keyLength : ∀ k, randomKey = .ok k → k.length = 32
  ivLength : ∀ v, randomIv = .ok v → v.length = 16

/-- The files on disk, path to content. -/
abbrev Files := List (JSString × Bytes)

/-- The state the handlers act on: the disk and the Helia store. -/
structure World (σ : Type) where
  files : Files
  helia : σ

/-- The `req.file` object multer leaves after saving the upload under `uploads/`. -/
structure Upload where
  path : JSString
  originalname : JSString

inductive Body where
  | json (v : Json)
  | buffer (b : Bytes)
  deriving DecidableEq

/-- An HTTP response: status, the Content-Disposition header when set, and the body
(`res.json` or `res.send` of a buffer). -/
structure Response where
  status : Nat
  disposition : Option JSString
  body : Body
  deriving DecidableEq

/-- The message of the error Node throws for a path that does not exist. -/
def enoent (syscall : String) (path : JSString) : JSString :=
  js "ENOENT: no such file or directory, " ++ js syscall ++ js " '" ++ path ++ js "'"

/-- `fs.readFileSync`: the content, or the error thrown for a missing file. -/
def readFileSync (fs : Files) (path : JSString) : Except JSString Bytes :=
  match fs.lookup path with
  | some data => .ok data
  | none => .error (enoent "open" path)

/-- `fs.writeFileSync`: the file is created or replaced. -/
def writeFileSync (fs : Files) (path : JSString) (data : Bytes) : Files :=
  (path, data) :: fs.filter (fun p => p.1 ≠ path)

/-- `fs.unlinkSync`: the disk without the file, or the error thrown for a missing file. -/
def unlinkSync (fs : Files) (path : JSString) : Except JSString Files :=
  match fs.lookup path with
  | some _ => .ok (fs.filter (fun p => p.1 ≠ path))
  | none => .error (enoent "unlink" path)

/-! ## Helper functions of `app.js` -/

/-- Lines 43-48. The result is the pair `(iv, data)` of hex strings. -/
def encryptFile {σ : Type} (C : Prims σ) (A : Ambient) (buffer key : Bytes) :
    Except JSString (JSString × JSString) :=
  match A.randomIv with
  | .error e => .error e
  | .ok iv =>
    match C.aesEncrypt key iv buffer with
    | .error e => .error e
    | .ok encrypted => .ok (hexEncode iv, hexEncode encrypted)

/-- Lines 50-54. -/
def decryptFile {σ : Type} (C : Prims σ) (encryptedBuffer key : Bytes) (ivHex : JSString) :
    Except JSString Bytes :=
  C.aesDecrypt key (hexDecode ivHex) encryptedBuffer

/-- Lines 56-61. -/
def signData {σ : Type} (C : Prims σ) (data : JSString) : Except JSString JSString :=
  match C.rsaSign data with
  | .error e => .error e
  | .ok s => .ok (hexEncode s)

/-- Lines 63-68, for a signature that is a string. -/
def verifySignature {σ : Type} (C : Prims σ) (data signature : JSString) : Bool :=
  C.rsaVerify data (hexDecode signature)

/-- Lines 75-82: the file at `filePath` is streamed into the importer. -/
def addFileToHelia {σ : Type} (C : Prims σ) (w : World σ) (filePath : JSString) :
    Except JSString JSString × World σ :=
  match readFileSync w.files filePath with
  | .error e => (.error e, w)
  | .ok content =>
    match C.heliaAdd w.helia filePath content with
    | (r, s) => (r, { w with helia := s })

/-- Lines 85-111. -/
def getFileFromHelia {σ : Type} (C : Prims σ) (w : World σ) (cid : JSString) :
    Except JSString Bytes :=
  C.heliaGet w.helia cid

/-! ## Endpoints -/

/-- JavaScript `!x` for a request parameter that is absent or a string. -/
def falsy : Option JSString → Bool
  | none => true
  | some s => s.isEmpty

def errorJson (error : String) : Json := .obj [(js "error", .str (js error))]

def errorDetails (error : String) (details : JSString) : Json :=
  .obj [(js "error", .str (js error)), (js "details", .str details)]

/-- The metadata object literal of lines 133-140. -/
def metadataFields (filename timestamp iv aesKey fileHash : JSString) : List (JSString × Json) :=
  [(js "filename", .str filename), (js "timestamp", .str timestamp), (js "version", .num 1),
   (js "iv", .str iv), (js "aesKey", .str aesKey), (js "fileHash", .str fileHash)]

def backupMessage : JSString :=
  js "Backup successful: file encrypted, signed, and stored on Helia."

/-- The body `res.json` sends at line 159. -/
def backupJson (cid : JSString) (metadata : Json) : Json :=
  .obj [(js "cid", .str cid), (js "metadata", metadata), (js "message", .str backupMessage)]

/-- Lines 120-163, the `try` block of `/backup`: the CID and the metadata, or the message of the
error thrown, with the state reached. -/
def backupSteps {σ : Type} (C : Prims σ) (A : Ambient) (w : World σ) (file : Option Upload) :
    Except JSString (JSString × Json) × World σ :=
  match file with
  | none => (.error (js "Cannot read properties of undefined (reading 'path')"), w)
  | some up =>
    match readFileSync w.files up.path with
    | .error e => (.error e, w)
    | .ok fileBuffer =>
      let fileHash := sha256Hex fileBuffer
      match A.randomKey with
      | .error e => (.error e, w)
      | .ok aesKey =>
        match encryptFile C A fileBuffer aesKey with
        | .error e => (.error e, w)
        | .ok encrypted =>
          let metadata :=
            metadataFields up.originalname A.isoTime encrypted.1 (hexEncode aesKey) fileHash
          let metadataStr := stringify (.obj metadata)
          match signData C metadataStr with
          | .error e => (.error e, w)
          | .ok signature =>
            let signed := setProp metadata (js "signature") (.str signature)
            let tempFilePath := up.path ++ js "_encrypted"
            let w1 : World σ :=
              { w with files := writeFileSync w.files tempFilePath (hexDecode encrypted.2) }
            match addFileToHelia C w1 tempFilePath with
            | (.error e, w2) => (.error e, w2)
            | (.ok cid, w2) =>
              match unlinkSync w2.files up.path with
              | .error e => (.error e, w2)
              | .ok fs3 =>
                match unlinkSync fs3 tempFilePath with
                | .error e => (.error e, { w2 with files := fs3 })
                | .ok fs4 => (.ok (cid, .obj signed), { w2 with files := fs4 })

/-- The handler of `POST /backup`, lines 118-168. -/
def postBackup {σ : Type} (C : Prims σ) (A : Ambient) (w : World σ) (file : Option Upload) :
    Response × World σ :=
  match backupSteps C A w file with
  | (.ok (cid, metadata), w2) => (⟨200, none, .json (backupJson cid metadata)⟩, w2)
  | (.error e, w2) => (⟨500, none, .json (errorDetails "Error during backup process." e)⟩, w2)

/-- The query of `GET /restore`. -/
structure RestoreQuery where
  cid : Option JSString
  iv : Option JSString
  aesKey : Option JSString
  expectedHash : Option JSString

def attachment (stem : String) (nowMs : Nat) : JSString :=
  js "attachment; filename=\"" ++ js stem ++ natToDec nowMs ++ js "\""

/-- The handler of `GET /restore`, lines 171-197. It reads the store and writes nothing. -/
def getRestore {σ : Type} (C : Prims σ) (A : Ambient) (w : World σ) (q : RestoreQuery) :
    Response :=
  if falsy q.cid || falsy q.iv || falsy q.aesKey || falsy q.expectedHash then
    ⟨400, none, .json (errorJson "Missing required query parameters.")⟩
  else
    match getFileFromHelia C w (q.cid.getD []) with
    | .error e => ⟨500, none, .json (errorDetails "Error during restore process." e)⟩
    | .ok encryptedBuffer =>
      let keyBuffer := hexDecode (q.aesKey.getD [])
      match decryptFile C encryptedBuffer keyBuffer (q.iv.getD []) with
      | .error e => ⟨500, none, .json (errorDetails "Error during restore process." e)⟩
      | .ok decryptedBuffer =>
        let decryptedHash := sha256Hex decryptedBuffer
        if decryptedHash ≠ q.expectedHash.getD [] then
          ⟨400, none, .json (errorJson "File integrity check failed.")⟩
        else
          ⟨200, some (attachment "restored_" A.nowMs), .buffer decryptedBuffer⟩

def validJson (valid : Bool) : Json := .obj [(js "valid", .bool valid)]

/-- Lines 206-211 on the parsed value: `null.signature` throws, a value that is not an object
has no `signature`, and `verify.verify` throws on a signature that is not a string. -/
def verifyParsed {σ : Type} (C : Prims σ) : Json → Response
  | .obj m =>
    match getProp m (js "signature") with
    | some (.str signature) =>
      let dataStr := stringify (.obj (deleteProp m (js "signature")))
      ⟨200, none, .json (validJson (verifySignature C dataStr signature))⟩
    | _ => ⟨500, none, .json (errorJson "Error verifying metadata signature.")⟩
  | _ => ⟨500, none, .json (errorJson "Error verifying metadata signature.")⟩

/-- The handler of `GET /verifyMetadata`, lines 200-216. The result is `none` when the text
holds a number token outside the integer model. -/
def getVerifyMetadata {σ : Type} (C : Prims σ) (metadata : Option JSString) : Option Response :=
  if falsy metadata then
    some ⟨400, none, .json (errorJson "Missing metadata parameter.")⟩
  else
    match parse (metadata.getD []) with
    | .error .outside => none
    | .error .malformed => some ⟨500, none, .json (errorJson "Error verifying metadata signature.")⟩
    | .ok metadataObj => some (verifyParsed C metadataObj)

/-- The handler of `POST /decryptFile`, lines 221-255. -/
def postDecryptFile {σ : Type} (C : Prims σ) (A : Ambient) (w : World σ) (file : Option Upload)
    (aesKey iv expectedHash : Option JSString) : Response × World σ :=
  let failed : JSString → Response := fun e =>
    ⟨500, none, .json (errorDetails "Error during file decryption." e)⟩
  match file with
  | none => (failed (js "Cannot read properties of undefined (reading 'path')"), w)
  | some up =>
    match readFileSync w.files up.path with
    | .error e => (failed e, w)
    | .ok encryptedFileBuffer =>
      if falsy aesKey || falsy iv then
        (⟨400, none, .json (errorJson "Missing aesKey or iv in request body.")⟩, w)
      else
        let keyBuffer := hexDecode (aesKey.getD [])
        match decryptFile C encryptedFileBuffer keyBuffer (iv.getD []) with
        | .error e => (failed e, w)
        | .ok decryptedBuffer =>
          if !falsy expectedHash && sha256Hex decryptedBuffer ≠ expectedHash.getD [] then
            match unlinkSync w.files up.path with
            | .error e => (failed e, w)
            | .ok fs2 =>
              (⟨400, none, .json (errorJson "File integrity check failed.")⟩,
                { w with files := fs2 })
          else
            match unlinkSync w.files up.path with
            | .error e => (failed e, w)
            | .ok fs2 =>
              (⟨200, some (attachment "decrypted_" A.nowMs), .buffer decryptedBuffer⟩,
                { w with files := fs2 })

/-! ## Laws assumed of the library calls -/

/-- AES-256-CBC decryption with the same key and IV inverts encryption. -/
def AesInverts {σ : Type} (C : Prims σ) : Prop :=
  ∀ key iv data enc, C.aesEncrypt key iv data = .ok enc → C.aesDecrypt key iv enc = .ok data

/-- The store returns the bytes that were put, under a CID whose text is not empty. -/
def StoreReturns {σ : Type} (C : Prims σ) : Prop :=
  ∀ s path content cid s2, C.heliaAdd s path content = (.ok cid, s2) →
    cid ≠ [] ∧ C.heliaGet s2 cid = .ok content

/-- Verification accepts what signing produced for the same string. -/
def SignAccepted {σ : Type} (C : Prims σ) : Prop :=
  ∀ data s, C.rsaSign data = .ok s → C.rsaVerify data s = true

/-- A signature made for one string is not accepted for a different string. -/
def SignBinds {σ : Type} (C : Prims σ) : Prop :=
  ∀ data s other, C.rsaSign data = .ok s → C.rsaVerify other s = true → other = data

/-- Only the signature that signing produces is accepted for a string (RSA PKCS#1 v1.5 is
deterministic). -/
def SignUnique {σ : Type} (C : Prims σ) : Prop :=
  ∀ data s other, C.rsaSign data = .ok s → C.rsaVerify data other = true → other = s

/-- The value of a property that holds a string. -/
def strProp (m : List (JSString × Json)) (k : JSString) : Option JSString :=
  match getProp m k with
  | some (.str s) => some s
  | _ => none

/-- The own properties of a value (none for a value that is not an object). -/
def Json.members : Json → List (JSString × Json)
  | .obj m => m
  | _ => []

/-! ## A reference instance of the environment

Executable stand-ins for the library calls, used to run the handlers on concrete requests: a
byte-wise shift cipher, a signature that is an injective encoding of the signed string, and a
store addressed by the SHA-256 of the content. -/

def demoShift (key iv : Bytes) : Byte := key.headD 0 + iv.headD 0

/-- Code units as bytes, base 255 with the last digit below 255, so that distinct strings have
distinct encodings. -/
def demoSig : JSString → Bytes
  | [] => []
  | c :: rest => List.replicate (c / 255) 255 ++ (Fin.ofNat (c % 255) :: demoSig rest)

def demoCid (content : Bytes) : JSString := js "sha256-" ++ sha256Hex content

def demoPrims : Prims (List (JSString × Bytes)) where
  aesEncrypt key iv data :=
    if key.length = 32 ∧ iv.length = 16 then .ok (data.map (fun b => b + demoShift key iv))
    else .error (js "Invalid key length")
  aesDecrypt key iv data :=
    if key.length = 32 ∧ iv.length = 16 then .ok (data.map (fun b => b - demoShift key iv))
    else .error (js "Invalid key length")
  rsaSign data := .ok (demoSig data)
  rsaVerify data signature := decide (signature = demoSig data)
  heliaAdd store _ content := (.ok (demoCid content), (demoCid content, content) :: store)
  heliaGet store cid :=
    match store.lookup cid with
    | some content => .ok content
    | none => .error (js "Block not found")

def demoAmbient : Ambient where
  randomKey := .ok (List.replicate 32 7)
  randomIv := .ok (List.replicate 16 3)
  isoTime := js "2025-03-01T12:00:00.000Z"
  nowMs := 1740830400000
  keyLength := by intro k h; cases h; rfl
  ivLength := by intro v h; cases h; rfl

/-- The five bytes of the text hello. -/
def helloBytes : Bytes := [104, 101, 108, 108, 111]

def demoUpload : Upload := ⟨js "uploads/3f2a", js "hello.txt"⟩

/-- The disk after multer saved the upload. -/
def demoWorld : World (List (JSString × Bytes)) := ⟨[(js "uploads/3f2a", helloBytes)], []⟩

/-- The metadata the reference backup returns. -/
def demoFields : List (JSString × Json) :=
  metadataFields (js "hello.txt") (js "2025-03-01T12:00:00.000Z")
    (hexEncode (List.replicate 16 3)) (hexEncode (List.replicate 32 7)) (sha256Hex helloBytes)

def demoSignature : JSString := hexEncode (demoSig (stringify (.obj demoFields)))

def demoMetadata : Json := .obj (demoFields ++ [(js "signature", .str demoSignature)])

/-- The CID the reference backup returns: the address of the shifted bytes. -/
def demoBackupCid : JSString := demoCid (helloBytes.map (fun b => b + 10))

/-- A record with the six signed fields of the metadata, in the order `/backup` creates them,
holding arbitrary values. -/
def recordFields (filename timestamp version iv aesKey fileHash : Json) :
    List (JSString × Json) :=
  [(js "filename", filename), (js "timestamp", timestamp), (js "version", version),
   (js "iv", iv), (js "aesKey", aesKey), (js "fileHash", fileHash)]

/-- The names of the six signed fields. -/
def signedKeys : List JSString :=
  [js "filename", js "timestamp", js "version", js "iv", js "aesKey", js "fileHash"]

/-- The fields of the reference metadata with `timestamp` moved in front of `filename`. -/
def demoReordered : List (JSString × Json) :=
  [(js "timestamp", .str (js "2025-03-01T12:00:00.000Z")), (js "filename", .str (js "hello.txt")),
   (js "version", .num 1), (js "iv", .str (hexEncode (List.replicate 16 3))),
   (js "aesKey", .str (hexEncode (List.replicate 32 7))),
   (js "fileHash", .str (sha256Hex helloBytes)), (js "signature", .str demoSignature)]

/-- The fields of the reference metadata with `signature` moved to the front. -/
def demoSignatureFirst : List (JSString × Json) :=
  (js "signature", .str demoSignature) :: demoFields

/-- The reference metadata without its `filename` field. -/
def demoNoFilename : List (JSString × Json) := deleteProp demoMetadata.members (js "filename")

/-- The reference metadata with the number 5 in place of the signature string. -/
def demoNumericSignature : List (JSString × Json) := demoFields ++ [(js "signature", .num 5)]

/-- The store after the reference backup, with no file on disk. -/
def demoStore : World (List (JSString × Bytes)) :=
  ⟨[], [(demoBackupCid, helloBytes.map (fun b => b + 10))]⟩

/-- A complete query for a CID that was never put. -/
def demoUnknownCidQuery : RestoreQuery :=
  ⟨some (js "sha256-00"), some (hexEncode (List.replicate 16 3)),
    some (hexEncode (List.replicate 32 7)), some (sha256Hex helloBytes)⟩

/-- A complete query for the stored CID with a key of one byte, which the cipher refuses. -/
def demoShortKeyQuery : RestoreQuery :=
  ⟨some demoBackupCid, some (hexEncode (List.replicate 16 3)), some (js "07"),
    some (sha256Hex helloBytes)⟩

/-- The ciphertext of the reference backup, uploaded again for `/decryptFile`. -/
def demoCipherUpload : Upload := ⟨js "uploads/9c1d", js "hello.enc"⟩

/-- The store after the reference backup, with the ciphertext uploaded for `/decryptFile`. -/
def demoCipherWorld : World (List (JSString × Bytes)) :=
  ⟨[(js "uploads/9c1d", helloBytes.map (fun b => b + 10))],
    [(demoBackupCid, helloBytes.map (fun b => b + 10))]⟩

/-- A later moment, with other random draws. -/
def demoAmbientLater : Ambient where
  randomKey := .ok (List.replicate 32 11)
  randomIv := .ok (List.replicate 16 5)
  isoTime := js "2025-03-02T08:30:00.000Z"
  nowMs := 1740904200000
  keyLength := by intro k h; cases h; rfl
  ivLength := by intro v h; cases h; rfl

/-- The query that restores the reference backup. -/
def demoRestoreQuery : RestoreQuery :=
  ⟨some demoBackupCid, some (hexEncode (List.replicate 16 3)),
    some (hexEncode (List.replicate 32 7)), some (sha256Hex helloBytes)⟩

/-- The reference instance with a store that names its content differently. -/
def demoPrimsOtherStore : Prims (List (JSString × Bytes)) :=
  { demoPrims with
    heliaAdd := fun store _ content =>
      (.ok (js "bafy-" ++ sha256Hex content), (js "bafy-" ++ sha256Hex content, content) :: store) }

/-- The reference instance with a store whose put fails. -/
def demoPrimsFailingStore : Prims (List (JSString × Bytes)) :=
  { demoPrims with heliaAdd := fun store _ _ => (.error (js "put failed"), store) }

/-- The SHA-256 of the text hello in capital hex digits. -/
def demoUpperHash : JSString :=
  js "2CF24DBA5FB0A30E26E83B2AC5B9E29E1B161E5C1FA7425E73043362938B9824"

/-- A hex string with its letters `a-f` turned into capitals, as `toUpperCase` would. -/
def upperHex (s : JSString) : JSString :=
  s.map (fun c => if 97 ≤ c ∧ c ≤ 102 then c - 32 else c)

/-- The handler of `GET /restore`, lines 171-197, as a step on the state. The store lookup is
taken as an operation that may itself change the store (a block fetched from a peer and kept,
say): it yields the bytes or the error, and the store after it. The result carries the state
in which the response is sent. Apart from that one lookup the handler calls nothing that acts
on the store or on the disk. -/
def getRestoreSteps {σ : Type} (C : Prims σ)
    (lookup : σ → JSString → Except JSString Bytes × σ) (A : Ambient) (w : World σ)
    (q : RestoreQuery) : Response × World σ :=
  if falsy q.cid || falsy q.iv || falsy q.aesKey || falsy q.expectedHash then
    (⟨400, none, .json (errorJson "Missing required query parameters.")⟩, w)
  else
    match lookup w.helia (q.cid.getD []) with
    | (.error e, s) =>
      (⟨500, none, .json (errorDetails "Error during restore process." e)⟩, { w with helia := s })
    | (.ok encryptedBuffer, s) =>
      let keyBuffer := hexDecode (q.aesKey.getD [])
      match decryptFile C encryptedBuffer keyBuffer (q.iv.getD []) with
      | .error e =>
        (⟨500, none, .json (errorDetails "Error during restore process." e)⟩,
          { w with helia := s })
      | .ok decryptedBuffer =>
        let decryptedHash := sha256Hex decryptedBuffer
        if decryptedHash ≠ q.expectedHash.getD [] then
          (⟨400, none, .json (errorJson "File integrity check failed.")⟩, { w with helia := s })
        else
          (⟨200, some (attachment "restored_" A.nowMs), .buffer decryptedBuffer⟩,
            { w with helia := s })

/-- The lookup of the reference store, which leaves the store as it is. -/
def demoLookup (store : List (JSString × Bytes)) (cid : JSString) :
    Except JSString Bytes × List (JSString × Bytes) :=
  (demoPrims.heliaGet store cid, store)
/-! ## Round trip of `JSON.stringify` and `JSON.parse` -/

theorem unhex_hexDigit (n : Nat) (h : n < 16) : unhex (hexDigit n) = some n := by
  interval_cases n <;> rfl

theorem strStep_unicodeEscape (c : Nat) (hc : c < 65536) (tail : JSString) :
    strStep (unicodeEscape c ++ tail) = .unit c tail := by
  have h1 := unhex_hexDigit (c / 4096 % 16) (Nat.mod_lt _ (by decide))
  have h2 := unhex_hexDigit (c / 256 % 16) (Nat.mod_lt _ (by decide))
  have h3 := unhex_hexDigit (c / 16 % 16) (Nat.mod_lt _ (by decide))
  have h4 := unhex_hexDigit (c % 16) (Nat.mod_lt _ (by decide))
  have hv : c / 4096 % 16 * 4096 + c / 256 % 16 * 256 + c / 16 % 16 * 16 + c % 16 = c := by omega
  simp [unicodeEscape, strStep, h1, h2, h3, h4, hv]

theorem strStep_quoteUnit (c : Nat) (tail : JSString) :
    strStep (quoteUnit c ++ tail) = .unit c tail := by
  unfold quoteUnit
  split_ifs with h8 h9 h10 h12 h13 h34 h92 h32
  · subst h8; simp [strStep, unescape]
  · subst h9; simp [strStep, unescape]
  · subst h10; simp [strStep, unescape]
  · subst h12; simp [strStep, unescape]
  · subst h13; simp [strStep, unescape]
  · subst h34; simp [strStep, unescape]
  · subst h92; simp [strStep, unescape]
  · exact strStep_unicodeEscape c (by omega) tail
  · simp [strStep, h34, h92, h32]

theorem strStep_verbatim (c : Nat) (h : 127 < c) (tail : JSString) :
    strStep (c :: tail) = .unit c tail := by
  have h1 : ¬ c = 34 := by omega
  have h2 : ¬ c = 92 := by omega
  have h3 : ¬ c < 32 := by omega
  simp [strStep, h1, h2, h3]

theorem parseStrBody_quoteBody (s : JSString) :
    ∀ (f : Nat) (rest : JSString), (quoteBody s).length < f →
      parseStrBody f (quoteBody s ++ 34 :: rest) = .ok (s, rest) := by
  induction s using quoteBody.induct with
  | case1 =>
    intro f rest hf
    obtain ⟨g, rfl⟩ : ∃ g, f = g + 1 := ⟨f - 1, by omega⟩
    simp [quoteBody, parseStrBody, strStep]
  | case2 c hl d rest2 ht ih =>
    intro f rest hf
    have hl2 := hl
    have ht2 := ht
    simp only [isLead, isTrail, decide_eq_true_eq] at hl2 ht2
    rw [quoteBody] at hf ⊢
    simp only [hl, ht, if_true, List.length_cons] at hf ⊢
    obtain ⟨g, rfl⟩ : ∃ g, f = g + 2 := ⟨f - 2, by omega⟩
    simp only [List.cons_append, parseStrBody]
    rw [strStep_verbatim c (by omega)]
    simp only []
    rw [strStep_verbatim d (by omega)]
    simp only []
    rw [ih g rest (by omega)]; rfl
  | case3 c hl d rest2 ht ih =>
    intro f rest hf
    have hl2 := hl
    simp only [isLead, decide_eq_true_eq] at hl2
    rw [quoteBody] at hf ⊢
    simp only [hl, ht, if_true, Bool.false_eq_true, if_false, List.append_assoc,
      List.length_append] at hf ⊢
    obtain ⟨g, rfl⟩ : ∃ g, f = g + 1 := ⟨f - 1, by omega⟩
    simp only [parseStrBody]
    rw [strStep_unicodeEscape c (by omega)]
    simp only []
    rw [ih g rest (by simp [unicodeEscape] at hf; omega)]; rfl
  | case4 c hl =>
    intro f rest hf
    have hl2 := hl
    simp only [isLead, decide_eq_true_eq] at hl2
    rw [quoteBody] at hf ⊢
    simp only [hl, if_true] at hf ⊢
    obtain ⟨g, rfl⟩ : ∃ g, f = g + 2 := ⟨f - 2, by simp [unicodeEscape] at hf; omega⟩
    simp only [parseStrBody]
    rw [strStep_unicodeEscape c (by omega)]
    simp [strStep, consUnit]
  | case5 c rest1 hl ht ih =>
    intro f rest hf
    have ht2 := ht
    simp only [isTrail, decide_eq_true_eq] at ht2
    rw [quoteBody.eq_def] at hf ⊢
    simp only [hl, ht, if_true, Bool.false_eq_true, if_false, List.append_assoc,
      List.length_append] at hf ⊢
    obtain ⟨g, rfl⟩ : ∃ g, f = g + 1 := ⟨f - 1, by omega⟩
    simp only [parseStrBody]
    rw [strStep_unicodeEscape c (by omega)]
    simp only []
    rw [ih g rest (by simp [unicodeEscape] at hf; omega)]; rfl
  | case6 c rest1 hl ht ih =>
    intro f rest hf
    rw [quoteBody.eq_def] at hf ⊢
    simp only [hl, ht, Bool.false_eq_true, if_false, List.append_assoc,
      List.length_append] at hf ⊢
    obtain ⟨g, rfl⟩ : ∃ g, f = g + 1 := ⟨f - 1, by omega⟩
    simp only [parseStrBody]
    rw [strStep_quoteUnit]
    simp only []
    have hq : 0 < (quoteUnit c).length := by
      unfold quoteUnit; split_ifs <;> simp [unicodeEscape]
    rw [ih g rest (by omega)]; rfl

theorem parseString_quote (s rest : JSString) :
    parseString (quoteBody s ++ 34 :: rest) = .ok (s, rest) :=
  parseStrBody_quoteBody s _ rest (by simp; omega)

theorem decDigits_isDigit : ∀ (f n : Nat), ∀ c ∈ decDigits f n, isDigit c = true := by
  intro f
  induction f with
  | zero => intro n c hc; simp [decDigits] at hc
  | succ f ih =>
    intro n c hc
    rw [decDigits] at hc
    split_ifs at hc with h
    · simp at hc; subst hc; simp [isDigit]; omega
    · rw [List.mem_append] at hc
      rcases hc with hc | hc
      · exact ih _ c hc
      · simp at hc; subst hc; simp [isDigit]; omega

theorem decDigits_value : ∀ (f n : Nat), n < f → (decDigits f n).foldl digitStep 0 = n := by
  intro f
  induction f with
  | zero => intro n h; omega
  | succ f ih =>
    intro n h
    rw [decDigits]
    split_ifs with h10
    · simp [digitStep]
    · rw [List.foldl_append, ih (n / 10) (by omega)]
      simp [digitStep]; omega

theorem decDigits_head : ∀ (f n : Nat), n < f → 0 < n →
    ∃ c t, decDigits f n = c :: t ∧ c ≠ 48 ∧ isDigit c = true := by
  intro f
  induction f with
  | zero => intro n h; omega
  | succ f ih =>
    intro n h hpos
    rw [decDigits]
    split_ifs with h10
    · exact ⟨48 + n, [], rfl, by omega, by simp [isDigit]; omega⟩
    · obtain ⟨c, t, ht, hc, hd⟩ := ih (n / 10) (by omega) (by omega)
      exact ⟨c, t ++ [48 + n % 10], by rw [ht]; rfl, hc, hd⟩

theorem readDigits_append (ds : JSString) : ∀ (acc : Nat) (rest : JSString),
    (∀ c ∈ ds, isDigit c = true) → noDigitHead rest →
    readDigits acc (ds ++ rest) = (ds.foldl digitStep acc, rest) := by
  induction ds with
  | nil =>
    intro acc rest _ hr
    cases rest with
    | nil => simp [readDigits]
    | cons c t => simp [noDigitHead] at hr; simp [readDigits, hr]
  | cons d ds ih =>
    intro acc rest hd hr
    have h1 : isDigit d = true := hd d (by simp)
    simp only [List.cons_append, readDigits, h1, if_true, List.foldl_cons]
    exact ih _ rest (fun c hc => hd c (by simp [hc])) hr

theorem parseNat_natToDec (n : Nat) (rest : JSString) (hr : noDigitHead rest) :
    parseNat (natToDec n ++ rest) = .ok (n, rest) := by
  rcases Nat.eq_zero_or_pos n with h0 | hpos
  · subst h0; simp [natToDec, decDigits, parseNat]
  · obtain ⟨c, t, ht, hc, hd⟩ := decDigits_head (n + 1) n (by omega) hpos
    have hall := decDigits_isDigit (n + 1) n
    have hval := decDigits_value (n + 1) n (by omega)
    have hrd := readDigits_append (c :: t) 0 rest (by rw [← ht]; exact hall) hr
    rw [← ht, hval] at hrd
    rw [ht] at hrd
    simp only [List.cons_append, readDigits, hd, if_true] at hrd
    simp only [natToDec, ht, List.cons_append, parseNat, hc, if_false, hd, if_true]
    simp at hrd
    rw [hrd]

theorem noDigitHead_of_delim {rest : JSString} (h : Delim rest) : noDigitHead rest := by
  cases rest with
  | nil => trivial
  | cons c t =>
    simp only [Delim] at h
    simp only [noDigitHead, isDigit]
    rcases h with h | h | h <;> subst h <;> decide

theorem finishNumber_ok (neg : Bool) (n : Nat) (rest : JSString) (hr : Delim rest)
    (hn : n ≤ maxSafe) (hz : neg = true → n ≠ 0) :
    finishNumber neg (.ok (n, rest)) = .ok (.num (if neg then - (n : Int) else n), rest) := by
  have h1 : ¬ maxSafe < n := by omega
  have h2 : ¬ (neg = true ∧ n = 0) := fun h => hz h.1 h.2
  cases rest with
  | nil => simp [finishNumber, h1, h2]
  | cons c t =>
    simp only [Delim] at hr
    have h3 : ¬ (c = 46 ∨ c = 101 ∨ c = 69) := by omega
    simp [finishNumber, h1, h2, h3]

theorem stringifyElems_cons (v : Json) (vs : List Json) :
    stringifyElems (v :: vs) = stringify v ++ elemsTail vs := by
  induction vs generalizing v with
  | nil => simp [stringifyElems, elemsTail]
  | cons w ws ih => rw [stringifyElems, ih w]; simp [elemsTail]

theorem stringifyMembers_cons (p : JSString × Json) (ms : List (JSString × Json)) :
    stringifyMembers (p :: ms) = quote p.1 ++ 58 :: (stringify p.2 ++ membersTail ms) := by
  induction ms generalizing p with
  | nil => obtain ⟨k, v⟩ := p; simp [stringifyMembers, membersTail]
  | cons q qs ih =>
    obtain ⟨k, v⟩ := p
    rw [stringifyMembers, ih q]; simp [membersTail]

theorem js_null : js "null" = [110, 117, 108, 108] := by decide
theorem js_true : js "true" = [116, 114, 117, 101] := by decide
theorem js_false : js "false" = [102, 97, 108, 115, 101] := by decide

theorem delim_elemsTail (l : List Json) (rest : JSString) : Delim (elemsTail l ++ rest) := by
  cases l <;> simp [elemsTail, Delim]

theorem delim_membersTail (m : List (JSString × Json)) (rest : JSString) :
    Delim (membersTail m ++ rest) := by
  cases m <;> simp [membersTail, Delim]

theorem length_elemsTail (l : List Json) : l.length < (elemsTail l).length := by
  induction l with
  | nil => simp [elemsTail]
  | cons v vs ih => simp [elemsTail]; omega

theorem length_membersTail (m : List (JSString × Json)) : m.length < (membersTail m).length := by
  induction m with
  | nil => simp [membersTail]
  | cons v vs ih => simp [membersTail]; omega

theorem hasKey_append_single (acc : List (JSString × Json)) (k : JSString) (v : Json) (k2 : JSString) :
    hasKey (acc ++ [(k, v)]) k2 = (hasKey acc k2 || decide (k = k2)) := by
  simp [hasKey]

theorem setProp_fresh (acc : List (JSString × Json)) (k : JSString) (v : Json)
    (h1 : hasKey acc k = false) (h2 : arrayIndex k = none) : setProp acc k v = acc ++ [(k, v)] := by
  simp [setProp, h1, h2]

theorem foldl_setProp (ms : List (JSString × Json)) : ∀ (acc : List (JSString × Json)),
    (ms.map Prod.fst).Nodup → (∀ p ∈ ms, arrayIndex p.1 = none) →
    (∀ p ∈ ms, hasKey acc p.1 = false) →
    ms.foldl (fun m p => setProp m p.1 p.2) acc = acc ++ ms := by
  induction ms with
  | nil => intro acc _ _ _; simp
  | cons p ms ih =>
    intro acc hnd hidx hacc
    simp only [List.map_cons, List.nodup_cons] at hnd
    have h1 : hasKey acc p.1 = false := hacc p (by simp)
    have h2 : arrayIndex p.1 = none := hidx p (by simp)
    rw [List.foldl_cons, setProp_fresh acc p.1 p.2 h1 h2]
    rw [ih (acc ++ [(p.1, p.2)]) hnd.2 (fun q hq => hidx q (by simp [hq]))]
    · simp
    · intro q hq
      rw [hasKey_append_single, hacc q (by simp [hq])]
      simp only [Bool.false_or, decide_eq_false_iff_not]
      intro h
      exact hnd.1 (h ▸ List.mem_map_of_mem Prod.fst hq)

theorem mkObject_plain (m : List (JSString × Json)) (hnd : (m.map Prod.fst).Nodup)
    (hidx : ∀ p ∈ m, arrayIndex p.1 = none) : mkObject m = .obj m := by
  simp only [mkObject]
  rw [foldl_setProp m [] hnd hidx (by intro p _; simp [hasKey])]
  simp

theorem skipWs_cons (c : Nat) (t : JSString) (h : isWs c = false) : skipWs (c :: t) = c :: t := by
  simp [skipWs, h]

theorem decDigits_ne_nil (f n : Nat) : decDigits (f + 1) n ≠ [] := by
  rw [decDigits]; split_ifs <;> simp

theorem stringify_head (v : Json) :
    ∃ c t, stringify v = c :: t ∧ isWs c = false ∧ c ≠ 93 ∧ c ≠ 125 := by
  cases v with
  | null => exact ⟨110, [117, 108, 108], by rw [stringify, js_null], by decide, by decide, by decide⟩
  | bool b =>
    cases b
    · exact ⟨102, [97, 108, 115, 101], by rw [stringify, js_false], by decide, by decide, by decide⟩
    · exact ⟨116, [114, 117, 101], by rw [stringify, js_true], by decide, by decide, by decide⟩
  | num n =>
    rw [stringify, intToDec]
    split_ifs
    · exact ⟨45, _, rfl, by decide, by decide, by decide⟩
    · have hne := decDigits_ne_nil n.natAbs n.natAbs
      have hd := decDigits_isDigit (n.natAbs + 1) n.natAbs
      rw [natToDec]
      cases hds : decDigits (n.natAbs + 1) n.natAbs with
      | nil => exact absurd hds hne
      | cons c t =>
        have hc : isDigit c = true := hd c (by rw [hds]; simp)
        simp only [isDigit, decide_eq_true_eq] at hc
        refine ⟨c, t, rfl, ?_, by omega, by omega⟩
        simp only [isWs, Bool.or_eq_false_iff, decide_eq_false_iff_not]
        omega
  | str s => exact ⟨34, _, by rw [stringify, quote], by decide, by decide, by decide⟩
  | arr l => exact ⟨91, _, by rw [stringify], by decide, by decide, by decide⟩
  | obj m => exact ⟨123, _, by rw [stringify], by decide, by decide, by decide⟩

theorem parseValue_null (f : Nat) (rest : JSString) :
    parseValue (f + 1) (stringify .null ++ rest) = .ok (.null, rest) := by
  simp [stringify, js_null, parseValue, skipWs, isWs, isDigit, parseLiteral, dropWord]

theorem parseValue_bool (b : Bool) (f : Nat) (rest : JSString) :
    parseValue (f + 1) (stringify (.bool b) ++ rest) = .ok (.bool b, rest) := by
  cases b <;>
    simp [stringify, js_true, js_false, parseValue, skipWs, isWs, isDigit, parseLiteral, dropWord]

theorem parseValue_str (s : JSString) (f : Nat) (rest : JSString) :
    parseValue (f + 1) (stringify (.str s) ++ rest) = .ok (.str s, rest) := by
  simp [stringify, quote, parseValue, skipWs, isWs, parseString_quote]

theorem parseValue_num (n : Int) (hn : n.natAbs ≤ maxSafe) (f : Nat) (rest : JSString)
    (hr : Delim rest) :
    parseValue (f + 1) (stringify (.num n) ++ rest) = .ok (.num n, rest) := by
  rw [stringify, intToDec]
  split_ifs with hneg
  · have h0 : n.natAbs ≠ 0 := by omega
    simp only [List.cons_append, parseValue]
    rw [skipWs_cons 45 _ (by decide)]
    simp only [show ¬ (45 : Nat) = 123 by decide, show ¬ (45 : Nat) = 91 by decide,
      show ¬ (45 : Nat) = 34 by decide, if_false, if_true]
    rw [parseNat_natToDec _ _ (noDigitHead_of_delim hr), finishNumber_ok true _ _ hr hn (fun _ => h0)]
    simp only [if_true]
    have hv : -(n.natAbs : Int) = n := by omega
    rw [hv]
  · obtain ⟨c, t, hct, hws, h93, h125⟩ := stringify_head (.num n)
    rw [stringify, intToDec, if_neg hneg] at hct
    have hd := decDigits_isDigit (n.natAbs + 1) n.natAbs c (by
      rw [natToDec] at hct; rw [hct]; simp)
    have hd2 := hd
    simp only [isDigit, decide_eq_true_eq] at hd2
    rw [parseValue, hct, List.cons_append, skipWs_cons c _ hws]
    simp only [show ¬ c = 123 by omega, show ¬ c = 91 by omega, show ¬ c = 34 by omega,
      show ¬ c = 45 by omega, hd, if_false, if_true]
    rw [← List.cons_append, ← hct, parseNat_natToDec _ _ (noDigitHead_of_delim hr),
      finishNumber_ok false _ _ hr hn (by simp)]
    simp only [Bool.false_eq_true, if_false]
    have hv : (n.natAbs : Int) = n := by omega
    rw [hv]

theorem parseMember_member (pv : JSString → Parse Json) (k : JSString) (v : Json) (tl : JSString)
    (hpv : pv (stringify v ++ tl) = .ok (v, tl)) :
    parseMember pv (quote k ++ 58 :: (stringify v ++ tl)) = .ok ((k, v), tl) := by
  simp [parseMember, quote, skipWs, isWs, parseString_quote, hpv]

theorem parseArray_cons (pv : JSString → Parse Json) (v : Json) (vs : List Json)
    (tl rest : JSString) (hpv : pv (stringify v ++ tl) = .ok (v, tl))
    (hrest : parseArrayRest pv tl.length.succ tl = .ok (vs, rest)) :
    parseArray pv (stringify v ++ tl) = .ok (v :: vs, rest) := by
  obtain ⟨c, t, hct, hws, h93, _⟩ := stringify_head v
  rw [parseArray, hct, List.cons_append, skipWs_cons c _ hws]
  simp only [h93, if_false]
  rw [← List.cons_append, ← hct, hpv]
  simp only [hrest]

theorem parseObject_cons (pv : JSString → Parse Json) (p : JSString × Json)
    (ms : List (JSString × Json)) (tl rest : JSString)
    (hpv : pv (stringify p.2 ++ tl) = .ok (p.2, tl))
    (hrest : parseObjectRest pv tl.length.succ tl = .ok (ms, rest)) :
    parseObject pv (quote p.1 ++ 58 :: (stringify p.2 ++ tl)) = .ok (p :: ms, rest) := by
  have hm := parseMember_member pv p.1 p.2 tl hpv
  rw [quote, List.cons_append] at hm ⊢
  rw [parseObject, skipWs_cons 34 _ (by decide)]
  simp only [show ¬ (34 : Nat) = 125 by decide, if_false]
  rw [hm]
  simp only [hrest]

mutual
theorem parseValue_stringify : ∀ (v : Json), v.plain = true → ∀ (f : Nat) (rest : JSString),
    (stringify v).length < f → Delim rest → parseValue f (stringify v ++ rest) = .ok (v, rest)
  | .null, _, f, rest, hf, _ => by
    obtain ⟨g, rfl⟩ : ∃ g, f = g + 1 := ⟨f - 1, by omega⟩
    exact parseValue_null g rest
  | .bool b, _, f, rest, hf, _ => by
    obtain ⟨g, rfl⟩ : ∃ g, f = g + 1 := ⟨f - 1, by omega⟩
    exact parseValue_bool b g rest
  | .num n, hp, f, rest, hf, hr => by
    obtain ⟨g, rfl⟩ : ∃ g, f = g + 1 := ⟨f - 1, by omega⟩
    exact parseValue_num n (by simpa [Json.plain] using hp) g rest hr
  | .str s, _, f, rest, hf, _ => by
    obtain ⟨g, rfl⟩ : ∃ g, f = g + 1 := ⟨f - 1, by omega⟩
    exact parseValue_str s g rest
  | .arr [], _, f, rest, hf, _ => by
    obtain ⟨g, rfl⟩ : ∃ g, f = g + 1 := ⟨f - 1, by omega⟩
    simp [stringify, stringifyElems, parseValue, skipWs, isWs, parseArray]
  | .arr (v :: vs), hp, f, rest, hf, hr => by
    obtain ⟨g, rfl⟩ : ∃ g, f = g + 1 := ⟨f - 1, by omega⟩
    simp only [Json.plain, plainElems, Bool.and_eq_true] at hp
    rw [stringify, stringifyElems_cons] at hf ⊢
    simp only [List.length_cons, List.length_append] at hf
    have h1 := parseValue_stringify v hp.1 g (elemsTail vs ++ rest) (by omega)
      (delim_elemsTail vs rest)
    have h2 := parseElems_stringify vs hp.2 g (elemsTail vs ++ rest).length.succ rest (by omega)
      (by have := length_elemsTail vs; simp only [List.length_append]; omega) hr
    have h3 := parseArray_cons (parseValue g) v vs (elemsTail vs ++ rest) rest h1 h2
    rw [List.cons_append, List.append_assoc, parseValue, skipWs_cons 91 _ (by decide)]
    simp only [show ¬ (91 : Nat) = 123 by decide, if_false, if_true, h3]
  | .obj [], _, f, rest, hf, _ => by
    obtain ⟨g, rfl⟩ : ∃ g, f = g + 1 := ⟨f - 1, by omega⟩
    simp [stringify, stringifyMembers, parseValue, skipWs, isWs, parseObject, mkObject]
  | .obj (p :: ms), hp, f, rest, hf, hr => by
    obtain ⟨g, rfl⟩ : ∃ g, f = g + 1 := ⟨f - 1, by omega⟩
    simp only [Json.plain, plainMembers, Bool.and_eq_true, decide_eq_true_eq, List.all_eq_true,
      Option.isNone_iff_eq_none] at hp
    rw [stringify, stringifyMembers_cons] at hf ⊢
    simp only [List.length_cons, List.length_append] at hf
    have h1 := parseValue_stringify p.2 hp.2.1 g (membersTail ms ++ rest) (by omega)
      (delim_membersTail ms rest)
    have h2 := parseMembers_stringify ms hp.2.2 g (membersTail ms ++ rest).length.succ rest
      (by omega) (by have := length_membersTail ms; simp only [List.length_append]; omega) hr
    have h3 := parseObject_cons (parseValue g) p ms (membersTail ms ++ rest) rest h1 h2
    rw [List.cons_append, List.append_assoc, List.cons_append, List.append_assoc, parseValue,
      skipWs_cons 123 _ (by decide)]
    simp only [if_true, h3, mkObject_plain (p :: ms) hp.1.1 hp.1.2]
theorem parseElems_stringify : ∀ (l : List Json), plainElems l = true →
    ∀ (g f : Nat) (rest : JSString), (elemsTail l).length ≤ g → l.length < f → Delim rest →
      parseArrayRest (parseValue g) f (elemsTail l ++ rest) = .ok (l, rest)
  | [], _, g, f, rest, _, hf, _ => by
    obtain ⟨f2, rfl⟩ : ∃ f2, f = f2 + 1 := ⟨f - 1, by omega⟩
    simp [elemsTail, parseArrayRest, skipWs, isWs]
  | w :: ws, hp, g, f, rest, hg, hf, hr => by
    obtain ⟨f2, rfl⟩ : ∃ f2, f = f2 + 1 := ⟨f - 1, by omega⟩
    simp only [plainElems, Bool.and_eq_true] at hp
    simp only [elemsTail, List.length_cons, List.length_append] at hg hf
    have h1 := parseValue_stringify w hp.1 g (elemsTail ws ++ rest) (by omega)
      (delim_elemsTail ws rest)
    have h2 := parseElems_stringify ws hp.2 g f2 rest (by omega) (by omega) hr
    rw [elemsTail, List.cons_append, List.append_assoc, parseArrayRest,
      skipWs_cons 44 _ (by decide)]
    simp only [show ¬ (44 : Nat) = 93 by decide, if_false, if_true, h1, h2]
theorem parseMembers_stringify : ∀ (m : List (JSString × Json)), plainMembers m = true →
    ∀ (g f : Nat) (rest : JSString), (membersTail m).length ≤ g → m.length < f → Delim rest →
      parseObjectRest (parseValue g) f (membersTail m ++ rest) = .ok (m, rest)
  | [], _, g, f, rest, _, hf, _ => by
    obtain ⟨f2, rfl⟩ : ∃ f2, f = f2 + 1 := ⟨f - 1, by omega⟩
    simp [membersTail, parseObjectRest, skipWs, isWs]
  | p :: ms, hp, g, f, rest, hg, hf, hr => by
    obtain ⟨f2, rfl⟩ : ∃ f2, f = f2 + 1 := ⟨f - 1, by omega⟩
    simp only [plainMembers, Bool.and_eq_true] at hp
    simp only [membersTail, List.length_cons, List.length_append] at hg hf
    have h1 := parseValue_stringify p.2 hp.1 g (membersTail ms ++ rest) (by omega)
      (delim_membersTail ms rest)
    have h2 := parseMembers_stringify ms hp.2 g f2 rest (by omega) (by omega) hr
    have h3 := parseMember_member (parseValue g) p.1 p.2 (membersTail ms ++ rest) h1
    rw [membersTail, List.cons_append, List.append_assoc, List.cons_append, List.append_assoc,
      parseObjectRest, skipWs_cons 44 _ (by decide)]
    simp only [show ¬ (44 : Nat) = 125 by decide, if_false, if_true, h3, h2]
end

theorem parse_stringify (v : Json) (hp : v.plain = true) : parse (stringify v) = .ok v := by
  have h := parseValue_stringify v hp (stringify v).length.succ [] (by omega) trivial
  rw [List.append_nil] at h
  simp [parse, h, skipWs]
/-! ## Hex and digest lemmas -/

theorem hexDigit_lt (n : Nat) (h : n < 16) : isLowerHex (hexDigit n) = true := by
  interval_cases n <;> rfl

theorem unhexUnit_hexDigit (n : Nat) (h : n < 16) : unhexUnit (hexDigit n) = some n := by
  interval_cases n <;> rfl

theorem hexDecode_hexEncode (b : Bytes) : hexDecode (hexEncode b) = b := by
  induction b with
  | nil => rfl
  | cons x xs ih =>
    have h1 := unhexUnit_hexDigit (x.val / 16) (by omega)
    have h2 := unhexUnit_hexDigit (x.val % 16) (by omega)
    simp only [hexEncode, hexDecode, h1, h2, ih]
    congr 1
    apply Fin.ext
    simp only [Fin.ofNat, Fin.val_mk]
    omega

theorem hexEncode_length (b : Bytes) : (hexEncode b).length = 2 * b.length := by
  induction b with
  | nil => rfl
  | cons x xs ih => simp only [hexEncode, List.length_cons, ih]; omega

theorem hexEncode_lowerHex (b : Bytes) : ∀ c ∈ hexEncode b, isLowerHex c = true := by
  induction b with
  | nil => intro c hc; simp [hexEncode] at hc
  | cons x xs ih =>
    intro c hc
    simp only [hexEncode, List.mem_cons] at hc
    rcases hc with hc | hc | hc
    · subst hc; exact hexDigit_lt _ (by omega)
    · subst hc; exact hexDigit_lt _ (by omega)
    · exact ih c hc

theorem digest_length (msg : Bytes) : (SHA256.digest msg).length = 32 := by
  simp [SHA256.digest, SHA256.wordBytes]

theorem sha256Hex_length (msg : Bytes) : (sha256Hex msg).length = 64 := by
  rw [sha256Hex, hexEncode_length, digest_length]

theorem hexEncode_ne_nil (b : Bytes) (h : b ≠ []) : hexEncode b ≠ [] := by
  cases b with
  | nil => exact absurd rfl h
  | cons x xs => simp [hexEncode]

/-! ## What a successful backup did -/

theorem setProp_signature (filename timestamp iv aesKey fileHash : JSString) (v : Json) :
    setProp (metadataFields filename timestamp iv aesKey fileHash) (js "signature") v =
      metadataFields filename timestamp iv aesKey fileHash ++ [(js "signature", v)] := by
  apply setProp_fresh
  · have hk : ∀ k ∈ [js "filename", js "timestamp", js "version", js "iv", js "aesKey",
        js "fileHash"], decide (k = js "signature") = false := by decide
    simp only [hasKey, metadataFields, List.any_cons, List.any_nil]
    simp [hk]
  · decide

theorem readFileSync_write (fs : Files) (path : JSString) (data : Bytes) :
    readFileSync (writeFileSync fs path data) path = .ok data := by
  simp [readFileSync, writeFileSync, List.lookup]

/-- The steps a `/backup` request took when it answered with status 200: the upload was read,
key and IV were drawn, the plaintext was encrypted and the ciphertext stored, and the metadata
are the six fields followed by the signature of their serialization. -/
theorem backup_ok_inv {σ : Type} (C : Prims σ) (A : Ambient) (w : World σ) (file : Option Upload)
    (cid : JSString) (M : Json)
    (h : (postBackup C A w file).1 = ⟨200, none, .json (backupJson cid M)⟩) :
    ∃ up P key iv enc sig,
      file = some up ∧ readFileSync w.files up.path = .ok P ∧
      A.randomKey = .ok key ∧ A.randomIv = .ok iv ∧ C.aesEncrypt key iv P = .ok enc ∧
      C.rsaSign (stringify (.obj (metadataFields up.originalname A.isoTime (hexEncode iv)
        (hexEncode key) (sha256Hex P)))) = .ok sig ∧
      M = .obj (metadataFields up.originalname A.isoTime (hexEncode iv) (hexEncode key)
        (sha256Hex P) ++ [(js "signature", .str (hexEncode sig))]) ∧
      C.heliaAdd w.helia (up.path ++ js "_encrypted") enc =
        (.ok cid, (postBackup C A w file).2.helia) := by
  unfold postBackup at h ⊢
  cases file with
  | none => simp [backupSteps] at h
  | some up =>
    cases hP : readFileSync w.files up.path with
    | error e => simp [backupSteps, hP] at h
    | ok P =>
      cases hk : A.randomKey with
      | error e => simp [backupSteps, hP, hk] at h
      | ok key =>
        cases hiv : A.randomIv with
        | error e => simp [backupSteps, hP, hk, encryptFile, hiv] at h
        | ok iv =>
          cases henc : C.aesEncrypt key iv P with
          | error e => simp [backupSteps, hP, hk, encryptFile, hiv, henc] at h
          | ok enc =>
            cases hsig : C.rsaSign (stringify (.obj (metadataFields up.originalname A.isoTime
                (hexEncode iv) (hexEncode key) (sha256Hex P)))) with
            | error e => simp [backupSteps, hP, hk, encryptFile, hiv, henc, signData, hsig] at h
            | ok sig =>
              cases hadd : C.heliaAdd w.helia (up.path ++ js "_encrypted") enc with
              | mk r s2 =>
                simp only [backupSteps, hP, hk, encryptFile, hiv, henc, signData, hsig,
                  setProp_signature, hexDecode_hexEncode, addFileToHelia, readFileSync_write,
                  hadd] at h ⊢
                cases r with
                | error e => simp at h
                | ok cid2 =>
                  cases hu1 : unlinkSync (writeFileSync w.files (up.path ++ js "_encrypted") enc)
                      up.path with
                  | error e => simp [hu1] at h
                  | ok fs3 =>
                    cases hu2 : unlinkSync fs3 (up.path ++ js "_encrypted") with
                    | error e => simp [hu1, hu2] at h
                    | ok fs4 =>
                      simp only [hu1, hu2, backupJson, Response.mk.injEq, Body.json.injEq,
                        Json.obj.injEq, List.cons.injEq, Prod.mk.injEq, Json.str.injEq,
                        true_and, and_true] at h
                      obtain ⟨hc, hM⟩ := h
                      subst hc
                      exact ⟨up, P, key, iv, enc, sig, rfl, hP, rfl, rfl, henc, hsig, hM.symm,
                        by simp [hu1, hu2, hadd]⟩

theorem falsy_some (s : JSString) (h : s ≠ []) : falsy (some s) = false := by
  cases s with
  | nil => exact absurd rfl h
  | cons c t => rfl

theorem ne_nil_of_length {α : Type} (l : List α) (n : Nat) (h : l.length = n + 1) : l ≠ [] := by
  intro hl; subst hl; simp at h

theorem strProp_iv (f t iv k h : JSString) (tail : List (JSString × Json)) :
    strProp (metadataFields f t iv k h ++ tail) (js "iv") = some iv := rfl

theorem strProp_aesKey (f t iv k h : JSString) (tail : List (JSString × Json)) :
    strProp (metadataFields f t iv k h ++ tail) (js "aesKey") = some k := rfl

theorem strProp_fileHash (f t iv k h : JSString) (tail : List (JSString × Json)) :
    strProp (metadataFields f t iv k h ++ tail) (js "fileHash") = some h := rfl

theorem getProp_signature (f t iv k h : JSString) (v : Json) :
    getProp (metadataFields f t iv k h ++ [(js "signature", v)]) (js "signature") = some v := rfl

theorem deleteProp_signature (f t iv k h : JSString) (v : Json) :
    deleteProp (metadataFields f t iv k h ++ [(js "signature", v)]) (js "signature") =
      metadataFields f t iv k h := rfl

theorem metadata_plain (f t iv k h : JSString) (v : Json) (hv : v.plain = true) :
    (Json.obj (metadataFields f t iv k h ++ [(js "signature", v)])).plain = true := by
  have hkeys : (([js "filename", js "timestamp", js "version", js "iv", js "aesKey",
      js "fileHash", js "signature"] : List JSString).Nodup ∧
      ∀ k ∈ [js "filename", js "timestamp", js "version", js "iv", js "aesKey",
        js "fileHash", js "signature"], (arrayIndex k).isNone = true) := by decide
  simp only [Json.plain, metadataFields, List.cons_append, List.nil_append, List.map_cons,
    List.map_nil, plainMembers, List.all_cons, List.all_nil, Bool.and_true, Bool.and_eq_true,
    decide_eq_true_eq, hv]
  refine ⟨⟨hkeys.1, ?_⟩, ?_⟩
  · simp only [List.mem_cons, List.mem_singleton, forall_eq_or_imp, forall_eq] at hkeys
    simp [hkeys.2]
  · simp [maxSafe]

theorem stringify_obj_ne_nil (m : List (JSString × Json)) : stringify (.obj m) ≠ [] := by
  rw [stringify]; simp

theorem verify_of_plain {σ : Type} (C : Prims σ) (m : List (JSString × Json))
    (hp : (Json.obj m).plain = true) :
    getVerifyMetadata C (some (stringify (.obj m))) = some (verifyParsed C (.obj m)) := by
  simp only [getVerifyMetadata, falsy_some _ (stringify_obj_ne_nil m), Bool.false_eq_true,
    if_false, Option.getD_some, parse_stringify _ hp]

/-! ## Laws of the reference instance -/

theorem demo_aesInverts : AesInverts demoPrims := by
  intro key iv data enc h
  simp only [demoPrims] at h ⊢
  split_ifs at h ⊢ with hl
  cases h
  simp [List.map_map, Function.comp_def]

theorem demo_storeReturns : StoreReturns demoPrims := by
  intro s path content cid s2 h
  simp only [demoPrims, Prod.mk.injEq, Except.ok.injEq] at h
  obtain ⟨hc, hs⟩ := h
  subst hc hs
  refine ⟨by simp [demoCid, js], ?_⟩
  simp [demoPrims, List.lookup]

theorem demo_signAccepted : SignAccepted demoPrims := by
  intro data s h
  simp only [demoPrims, Except.ok.injEq] at h
  simp [demoPrims, h]

theorem demo_signUnique : SignUnique demoPrims := by
  intro data s other h hv
  simp only [demoPrims, Except.ok.injEq] at h
  simpa [demoPrims, h] using hv

set_option maxRecDepth 1000000 in
theorem demo_backup :
    (postBackup demoPrims demoAmbient demoWorld (some demoUpload)).1 =
      ⟨200, none, .json (backupJson demoBackupCid demoMetadata)⟩ := by decide

/-! ## Records with the metadata fields -/

theorem stringify_injective (a b : Json) (ha : a.plain = true) (hb : b.plain = true)
    (h : stringify a = stringify b) : a = b := by
  have h1 := parse_stringify a ha
  rw [h, parse_stringify b hb] at h1
  exact (Except.ok.inj h1).symm

theorem metadataFields_eq (f t iv k h : JSString) :
    metadataFields f t iv k h = recordFields (.str f) (.str t) (.num 1) (.str iv) (.str k) (.str h) :=
  rfl

theorem recordFields_plain (v1 v2 v3 v4 v5 v6 : Json) (h1 : v1.plain = true)
    (h2 : v2.plain = true) (h3 : v3.plain = true) (h4 : v4.plain = true) (h5 : v5.plain = true)
    (h6 : v6.plain = true) : (Json.obj (recordFields v1 v2 v3 v4 v5 v6)).plain = true := by
  have hkeys : (signedKeys.Nodup ∧ ∀ k ∈ signedKeys, (arrayIndex k).isNone = true) := by decide
  simp only [signedKeys, List.mem_cons, List.mem_singleton, forall_eq_or_imp, forall_eq,
    List.not_mem_nil, false_implies, and_true] at hkeys
  simp only [Json.plain, recordFields, List.map_cons, List.map_nil, plainMembers, List.all_cons,
    List.all_nil, Bool.and_true, Bool.and_eq_true, decide_eq_true_eq, h1, h2, h3, h4, h5, h6,
    and_self, and_true]
  exact ⟨hkeys.1, by simp [hkeys.2]⟩

theorem signedRecord_plain (v1 v2 v3 v4 v5 v6 v7 : Json) (h1 : v1.plain = true)
    (h2 : v2.plain = true) (h3 : v3.plain = true) (h4 : v4.plain = true) (h5 : v5.plain = true)
    (h6 : v6.plain = true) (h7 : v7.plain = true) :
    (Json.obj (recordFields v1 v2 v3 v4 v5 v6 ++ [(js "signature", v7)])).plain = true := by
  have hkeys : ((signedKeys ++ [js "signature"]).Nodup ∧
      ∀ k ∈ signedKeys ++ [js "signature"], (arrayIndex k).isNone = true) := by decide
  simp only [signedKeys, List.cons_append, List.nil_append, List.mem_cons, List.mem_singleton,
    forall_eq_or_imp, forall_eq, List.not_mem_nil, false_implies, and_true] at hkeys
  simp only [Json.plain, recordFields, List.cons_append, List.nil_append, List.map_cons,
    List.map_nil, plainMembers, List.all_cons, List.all_nil, Bool.and_true, Bool.and_eq_true,
    decide_eq_true_eq, h1, h2, h3, h4, h5, h6, h7, and_self, and_true]
  exact ⟨hkeys.1, by simp [hkeys.2]⟩

/-- The answer of `/verifyMetadata` to the text of a record that has the six fields and then a
string `signature`: the result of `verifySignature` on the serialization of the six fields. -/
theorem verify_signedRecord {σ : Type} (C : Prims σ) (v1 v2 v3 v4 v5 v6 : Json) (s : JSString)
    (h1 : v1.plain = true) (h2 : v2.plain = true) (h3 : v3.plain = true) (h4 : v4.plain = true)
    (h5 : v5.plain = true) (h6 : v6.plain = true) :
    getVerifyMetadata C (some (stringify
        (.obj (recordFields v1 v2 v3 v4 v5 v6 ++ [(js "signature", .str s)])))) =
      some ⟨200, none, .json (validJson
        (C.rsaVerify (stringify (.obj (recordFields v1 v2 v3 v4 v5 v6))) (hexDecode s)))⟩ := by
  rw [verify_of_plain C _ (signedRecord_plain v1 v2 v3 v4 v5 v6 (.str s) h1 h2 h3 h4 h5 h6 rfl)]
  have hg : getProp (recordFields v1 v2 v3 v4 v5 v6 ++ [(js "signature", .str s)])
      (js "signature") = some (.str s) := rfl
  have hd : deleteProp (recordFields v1 v2 v3 v4 v5 v6 ++ [(js "signature", .str s)])
      (js "signature") = recordFields v1 v2 v3 v4 v5 v6 := rfl
  simp only [verifyParsed, hg, hd, verifySignature]

/-- Replacing the value of one of the six signed fields of a signed record by a different value
gives a signed record with the same signature and different fields. -/
theorem replace_signed_field (o1 o2 o3 o4 o5 o6 sg : Json) (h1 : o1.plain = true)
    (h2 : o2.plain = true) (h3 : o3.plain = true) (h4 : o4.plain = true) (h5 : o5.plain = true)
    (h6 : o6.plain = true) (k : JSString) (hk : k ∈ signedKeys) (v : Json) (hv : v.plain = true)
    (hne : getProp (recordFields o1 o2 o3 o4 o5 o6 ++ [(js "signature", sg)]) k ≠ some v) :
    ∃ v1 v2 v3 v4 v5 v6, v1.plain = true ∧ v2.plain = true ∧ v3.plain = true ∧
      v4.plain = true ∧ v5.plain = true ∧ v6.plain = true ∧
      replaceProp k v (recordFields o1 o2 o3 o4 o5 o6 ++ [(js "signature", sg)]) =
        recordFields v1 v2 v3 v4 v5 v6 ++ [(js "signature", sg)] ∧
      recordFields v1 v2 v3 v4 v5 v6 ≠ recordFields o1 o2 o3 o4 o5 o6 := by
  simp only [signedKeys, List.mem_cons, List.mem_singleton, List.not_mem_nil, or_false] at hk
  rcases hk with rfl | rfl | rfl | rfl | rfl | rfl
  · have hg : getProp (recordFields o1 o2 o3 o4 o5 o6 ++ [(js "signature", sg)])
        (js "filename") = some o1 := rfl
    refine ⟨v, o2, o3, o4, o5, o6, hv, h2, h3, h4, h5, h6, rfl, ?_⟩
    intro h
    simp only [recordFields, List.cons.injEq, Prod.mk.injEq, true_and, and_true] at h
    exact hne (by rw [hg, h])
  · have hg : getProp (recordFields o1 o2 o3 o4 o5 o6 ++ [(js "signature", sg)])
        (js "timestamp") = some o2 := rfl
    refine ⟨o1, v, o3, o4, o5, o6, h1, hv, h3, h4, h5, h6, rfl, ?_⟩
    intro h
    simp only [recordFields, List.cons.injEq, Prod.mk.injEq, true_and, and_true] at h
    exact hne (by rw [hg, h])
  · have hg : getProp (recordFields o1 o2 o3 o4 o5 o6 ++ [(js "signature", sg)])
        (js "version") = some o3 := rfl
    refine ⟨o1, o2, v, o4, o5, o6, h1, h2, hv, h4, h5, h6, rfl, ?_⟩
    intro h
    simp only [recordFields, List.cons.injEq, Prod.mk.injEq, true_and, and_true] at h
    exact hne (by rw [hg, h])
  · have hg : getProp (recordFields o1 o2 o3 o4 o5 o6 ++ [(js "signature", sg)])
        (js "iv") = some o4 := rfl
    refine ⟨o1, o2, o3, v, o5, o6, h1, h2, h3, hv, h5, h6, rfl, ?_⟩
    intro h
    simp only [recordFields, List.cons.injEq, Prod.mk.injEq, true_and, and_true] at h
    exact hne (by rw [hg, h])
  · have hg : getProp (recordFields o1 o2 o3 o4 o5 o6 ++ [(js "signature", sg)])
        (js "aesKey") = some o5 := rfl
    refine ⟨o1, o2, o3, o4, v, o6, h1, h2, h3, h4, hv, h6, rfl, ?_⟩
    intro h
    simp only [recordFields, List.cons.injEq, Prod.mk.injEq, true_and, and_true] at h
    exact hne (by rw [hg, h])
  · have hg : getProp (recordFields o1 o2 o3 o4 o5 o6 ++ [(js "signature", sg)])
        (js "fileHash") = some o6 := rfl
    refine ⟨o1, o2, o3, o4, o5, v, h1, h2, h3, h4, h5, hv, rfl, ?_⟩
    intro h
    simp only [recordFields, List.cons.injEq, Prod.mk.injEq, true_and, and_true] at h
    exact hne (by rw [hg, h])

/-! ## Changing one character of a hex string -/

theorem unhexUnit_lt (c x : Nat) (h : unhexUnit c = some x) : x < 16 := by
  unfold unhexUnit unhex at h
  split_ifs at h <;> simp at h <;> omega

theorem byte_of_nibbles (b : Byte) (x y : Nat) (hx : x < 16) (hy : y < 16) :
    (Fin.ofNat (x * 16 + y) : Byte) = b ↔ x = b.val / 16 ∧ y = b.val % 16 := by
  constructor
  · intro h
    have hv := congrArg Fin.val h
    simp only [Fin.ofNat, Fin.val_mk] at hv
    omega
  · rintro ⟨rfl, rfl⟩
    apply Fin.ext
    simp only [Fin.ofNat, Fin.val_mk]
    omega

/-- Decoding a hex encoding after one character was overwritten gives the original bytes
exactly when the new character, read through its low 8 bits, has the hex value of the old one. -/
theorem hexDecode_set (bs : Bytes) : ∀ (i c : Nat), i < (hexEncode bs).length →
    (hexDecode ((hexEncode bs).set i c) = bs ↔ unhexUnit c = unhexUnit ((hexEncode bs).getD i 0)) := by
  induction bs with
  | nil => intro i c hi; simp [hexEncode] at hi
  | cons b rest ih =>
    intro i c hi
    have h1 := unhexUnit_hexDigit (b.val / 16) (by omega)
    have h2 := unhexUnit_hexDigit (b.val % 16) (by omega)
    match i with
    | 0 =>
      simp only [hexEncode, List.set_cons_zero, List.getD_cons_zero, h1, hexDecode, h2]
      cases hc : unhexUnit c with
      | none => simp
      | some x =>
        have hx := unhexUnit_lt c x hc
        simp only [hexDecode_hexEncode, List.cons.injEq, and_true, Option.some.injEq]
        rw [byte_of_nibbles b x _ hx (by omega)]
        simp
    | 1 =>
      simp only [hexEncode, List.set_cons_succ, List.set_cons_zero, List.getD_cons_succ,
        List.getD_cons_zero, h2, hexDecode, h1]
      cases hc : unhexUnit c with
      | none => simp
      | some y =>
        have hy := unhexUnit_lt c y hc
        simp only [hexDecode_hexEncode, List.cons.injEq, and_true, Option.some.injEq]
        rw [byte_of_nibbles b _ y (by omega) hy]
        simp
    | j + 2 =>
      simp only [hexEncode, List.length_cons] at hi
      simp only [hexEncode, List.set_cons_succ, List.getD_cons_succ, hexDecode, h1, h2]
      rw [← ih j c (by omega)]
      have hb : (Fin.ofNat (b.val / 16 * 16 + b.val % 16) : Byte) = b :=
        (byte_of_nibbles b _ _ (by omega) (by omega)).2 ⟨rfl, rfl⟩
      simp [hb]

theorem demoSig_head (q q2 : Nat) (x y : Byte) (a b : Bytes) (hx : x ≠ 255) (hy : y ≠ 255)
    (h : List.replicate q (255 : Byte) ++ x :: a = List.replicate q2 255 ++ y :: b) :
    q = q2 ∧ x = y ∧ a = b := by
  induction q generalizing q2 with
  | zero =>
    cases q2 with
    | zero => simpa using h
    | succ n => simp [List.replicate_succ] at h; exact absurd h.1 hx
  | succ m ih =>
    cases q2 with
    | zero => simp [List.replicate_succ] at h; exact absurd h.1.symm hy
    | succ n =>
      simp only [List.replicate_succ, List.cons_append, List.cons.injEq, true_and] at h
      obtain ⟨h1, h2, h3⟩ := ih n h
      exact ⟨by omega, h2, h3⟩

theorem demoSig_injective : ∀ (a b : JSString), demoSig a = demoSig b → a = b := by
  intro a
  induction a with
  | nil =>
    intro b h
    cases b with
    | nil => rfl
    | cons d r => simp [demoSig] at h
  | cons c r ih =>
    intro b h
    cases b with
    | nil => simp [demoSig] at h
    | cons d r2 =>
      simp only [demoSig] at h
      have hx : (Fin.ofNat (c % 255) : Byte) ≠ 255 := by
        intro hh
        have := congrArg Fin.val hh
        simp [Fin.ofNat] at this
        omega
      have hy : (Fin.ofNat (d % 255) : Byte) ≠ 255 := by
        intro hh
        have := congrArg Fin.val hh
        simp [Fin.ofNat] at this
        omega
      obtain ⟨h1, h2, h3⟩ := demoSig_head _ _ _ _ _ _ hx hy h
      have h4 := congrArg Fin.val h2
      simp only [Fin.ofNat, Fin.val_mk] at h4
      have hcd : c = d := by omega
      rw [hcd, ih r2 h3]

theorem demo_signBinds : SignBinds demoPrims := by
  intro data s other h hv
  simp only [demoPrims, Except.ok.injEq] at h
  subst h
  simp only [demoPrims, decide_eq_true_eq] at hv
  exact (demoSig_injective _ _ hv).symm

/-! ## Reordering the properties of an object -/

theorem plainMembers_iff (m : List (JSString × Json)) :
    plainMembers m = true ↔ ∀ p ∈ m, p.2.plain = true := by
  induction m with
  | nil => simp [plainMembers]
  | cons p ms ih => simp [plainMembers, ih]

theorem obj_plain_iff (m : List (JSString × Json)) :
    (Json.obj m).plain = true ↔
      (m.map Prod.fst).Nodup ∧ (∀ p ∈ m, arrayIndex p.1 = none) ∧ ∀ p ∈ m, p.2.plain = true := by
  simp only [Json.plain, Bool.and_eq_true, decide_eq_true_eq, List.all_eq_true,
    Option.isNone_iff_eq_none, plainMembers_iff, and_assoc]

theorem obj_plain_perm (l m : List (JSString × Json)) (h : l.Perm m)
    (hm : (Json.obj m).plain = true) : (Json.obj l).plain = true := by
  rw [obj_plain_iff] at hm ⊢
  obtain ⟨h1, h2, h3⟩ := hm
  exact ⟨(List.Perm.nodup_iff (h.map Prod.fst)).2 h1, fun p hp => h2 p (h.mem_iff.1 hp),
    fun p hp => h3 p (h.mem_iff.1 hp)⟩

theorem obj_plain_delete (m : List (JSString × Json)) (k : JSString)
    (hm : (Json.obj m).plain = true) : (Json.obj (deleteProp m k)).plain = true := by
  rw [obj_plain_iff] at hm ⊢
  obtain ⟨h1, h2, h3⟩ := hm
  have hsub : (deleteProp m k).Sublist m := List.filter_sublist m
  exact ⟨(hsub.map Prod.fst).nodup h1, fun p hp => h2 p (hsub.subset hp),
    fun p hp => h3 p (hsub.subset hp)⟩

theorem getProp_of_mem (m : List (JSString × Json)) (k : JSString) (v : Json)
    (hnd : (m.map Prod.fst).Nodup) (hmem : (k, v) ∈ m) : getProp m k = some v := by
  induction m with
  | nil => simp at hmem
  | cons p ms ih =>
    simp only [List.map_cons, List.nodup_cons] at hnd
    by_cases hk : p.1 = k
    · have hp : p = (k, v) := by
        rcases List.mem_cons.1 hmem with h | h
        · exact h.symm
        · exact absurd (List.mem_map_of_mem Prod.fst h) (by rw [← hk] at *; exact hnd.1)
      subst hp
      simp [getProp]
    · have hmem2 : (k, v) ∈ ms := by
        rcases List.mem_cons.1 hmem with h | h
        · exact absurd (by rw [← h]) hk
        · exact h
      have := ih hnd.2 hmem2
      simp only [getProp, List.find?_cons, hk, decide_False] at this ⊢
      exact this
/-! ## The claims -/

/-- C1. Round trip: when `/backup` of a file with bytes `P` answers with content id `cid` and
metadata `M`, then `/restore` called with that `cid` and with `iv`, `aesKey` and `fileHash`
read from `M` answers with status 200 and body exactly `P`, provided the store returns the
bytes that were put and AES decryption with the same key and IV inverts encryption. -/
theorem backup_restore_round_trip {σ : Type} (C : Prims σ) (A A2 : Ambient) (w : World σ)
    (up : Upload) (P : Bytes) (cid : JSString) (M : Json)
    (haes : AesInverts C) (hstore : StoreReturns C)
    (hP : readFileSync w.files up.path = .ok P)
    (hb : (postBackup C A w (some up)).1 = ⟨200, none, .json (backupJson cid M)⟩) :
    getRestore C A2 (postBackup C A w (some up)).2
        ⟨some cid, strProp M.members (js "iv"), strProp M.members (js "aesKey"),
          strProp M.members (js "fileHash")⟩ =
      ⟨200, some (attachment "restored_" A2.nowMs), .buffer P⟩ := by
  obtain ⟨up2, P2, key, iv, enc, sig, hup, hP2, hk, hiv, henc, _, hM, hadd⟩ :=
    backup_ok_inv C A w (some up) cid M hb
  cases hup
  rw [hP] at hP2
  cases hP2
  obtain ⟨hcid, hget⟩ := hstore _ _ _ _ _ hadd
  have hdec := haes _ _ _ _ henc
  have h1 : falsy (some cid) = false := falsy_some cid hcid
  have h2 : falsy (some (hexEncode iv)) = false :=
    falsy_some _ (hexEncode_ne_nil iv (ne_nil_of_length iv 15 (A.ivLength iv hiv)))
  have h3 : falsy (some (hexEncode key)) = false :=
    falsy_some _ (hexEncode_ne_nil key (ne_nil_of_length key 31 (A.keyLength key hk)))
  have h4 : falsy (some (sha256Hex P)) = false :=
    falsy_some _ (ne_nil_of_length _ 63 (sha256Hex_length P))
  subst hM
  simp only [Json.members, strProp_iv, strProp_aesKey, strProp_fileHash, getRestore, h1, h2, h3,
    h4, Bool.or_self, Bool.false_eq_true, if_false, Option.getD_some, getFileFromHelia, hget,
    decryptFile, hexDecode_hexEncode, hdec, ne_eq, not_true_eq_false]

theorem backup_restore_round_trip_witness :
    getRestore demoPrims demoAmbient
        (postBackup demoPrims demoAmbient demoWorld (some demoUpload)).2
        ⟨some demoBackupCid, strProp demoMetadata.members (js "iv"),
          strProp demoMetadata.members (js "aesKey"),
          strProp demoMetadata.members (js "fileHash")⟩ =
      ⟨200, some (attachment "restored_" demoAmbient.nowMs), .buffer helloBytes⟩ :=
  backup_restore_round_trip demoPrims demoAmbient demoAmbient demoWorld demoUpload helloBytes
    demoBackupCid demoMetadata demo_aesInverts demo_storeReturns (by decide) demo_backup

/-- C2. For every metadata record `M` returned by `/backup`, `/verifyMetadata` called with
`JSON.stringify(M)` (signature included) answers `valid = true`: the text parses back to `M`,
and deleting `signature` and serializing again gives exactly the string that `/backup` signed
(assuming `verifySignature` accepts what `signData` produced for the same string). -/
theorem verify_accepts_backup_metadata {σ : Type} (C : Prims σ) (A : Ambient) (w : World σ)
    (file : Option Upload) (cid : JSString) (M : Json) (hacc : SignAccepted C)
    (hb : (postBackup C A w file).1 = ⟨200, none, .json (backupJson cid M)⟩) :
    getVerifyMetadata C (some (stringify M)) = some ⟨200, none, .json (validJson true)⟩ ∧
    ∃ signed signature, signData C signed = .ok signature ∧
      parse (stringify M) = .ok M ∧
      getProp M.members (js "signature") = some (.str signature) ∧
      stringify (.obj (deleteProp M.members (js "signature"))) = signed := by
  obtain ⟨up, P, key, iv, enc, sig, _, _, _, _, _, hsig, hM, _⟩ :=
    backup_ok_inv C A w file cid M hb
  subst hM
  have hp := metadata_plain up.originalname A.isoTime (hexEncode iv) (hexEncode key)
    (sha256Hex P) (.str (hexEncode sig)) rfl
  refine ⟨?_, stringify (.obj (metadataFields up.originalname A.isoTime (hexEncode iv)
    (hexEncode key) (sha256Hex P))), hexEncode sig, by simp only [signData, hsig], parse_stringify _ hp,
    getProp_signature _ _ _ _ _ _, by rw [Json.members, deleteProp_signature]⟩
  rw [verify_of_plain C _ hp]
  simp only [verifyParsed, getProp_signature, deleteProp_signature, verifySignature,
    hexDecode_hexEncode, hacc _ _ hsig]

theorem verify_accepts_backup_metadata_witness :
    getVerifyMetadata demoPrims (some (stringify demoMetadata)) =
      some ⟨200, none, .json (validJson true)⟩ :=
  (verify_accepts_backup_metadata demoPrims demoAmbient demoWorld (some demoUpload)
    demoBackupCid demoMetadata demo_signAccepted demo_backup).1

/-- C3. `/restore` sends file bytes `B` only if the SHA-256 hex digest of `B` equals
`expectedHash`; and whenever decryption succeeds with bytes whose digest differs from
`expectedHash`, the answer is the integrity failure (status 400, `File integrity check
failed.`), a fixed body that holds none of the decrypted bytes. So with a wrong key or IV no
bytes whose digest differs from `expectedHash` are returned. -/
theorem restore_withholds_unverified_bytes {σ : Type} (C : Prims σ) (A : Ambient) (w : World σ)
    (q : RestoreQuery) :
    (∀ (status : Nat) (disposition : Option JSString) (B : Bytes),
        getRestore C A w q = ⟨status, disposition, .buffer B⟩ →
          q.expectedHash = some (sha256Hex B)) ∧
    (∀ (enc D : Bytes),
        (falsy q.cid || falsy q.iv || falsy q.aesKey || falsy q.expectedHash) = false →
        getFileFromHelia C w (q.cid.getD []) = .ok enc →
        decryptFile C enc (hexDecode (q.aesKey.getD [])) (q.iv.getD []) = .ok D →
        q.expectedHash ≠ some (sha256Hex D) →
          getRestore C A w q = ⟨400, none, .json (errorJson "File integrity check failed.")⟩) := by
  constructor
  · intro status disposition B h
    by_cases hf : (falsy q.cid || falsy q.iv || falsy q.aesKey || falsy q.expectedHash) = true
    · simp [getRestore, hf] at h
    · cases hg : getFileFromHelia C w (q.cid.getD []) with
      | error e => simp [getRestore, hf, hg] at h
      | ok enc =>
        cases hd : decryptFile C enc (hexDecode (q.aesKey.getD [])) (q.iv.getD []) with
        | error e => simp [getRestore, hf, hg, hd] at h
        | ok D =>
          by_cases hh : sha256Hex D = q.expectedHash.getD []
          · simp only [getRestore, hf, hg, hd, hh, ne_eq, not_true_eq_false, if_false,
              Response.mk.injEq, Body.buffer.injEq] at h
            obtain ⟨_, _, rfl⟩ := h
            cases he : q.expectedHash with
            | none => simp [falsy, he] at hf
            | some e => rw [he] at hh; simp at hh; rw [hh]
          · simp [getRestore, hf, hg, hd, hh] at h
  · intro enc D hf hg hd hne
    have hh : sha256Hex D ≠ q.expectedHash.getD [] := by
      intro heq
      cases he : q.expectedHash with
      | none => simp [falsy, he] at hf
      | some e => rw [he] at heq hne; simp at heq; exact hne (by rw [heq])
    simp only [getRestore, hf, Bool.false_eq_true, if_false, hg, hd, hh, ne_eq,
      not_false_eq_true, if_true]

/-- A query that carries the right CID, IV and hash of the reference backup but a wrong key. -/
def demoWrongKeyQuery : RestoreQuery :=
  ⟨some demoBackupCid, some (hexEncode (List.replicate 16 3)),
    some (hexEncode (List.replicate 32 9)), some (sha256Hex helloBytes)⟩

set_option maxRecDepth 1000000 in
theorem restore_withholds_unverified_bytes_witness :
    getRestore demoPrims demoAmbient
        (postBackup demoPrims demoAmbient demoWorld (some demoUpload)).2 demoWrongKeyQuery =
      ⟨400, none, .json (errorJson "File integrity check failed.")⟩ :=
  (restore_withholds_unverified_bytes demoPrims demoAmbient
    (postBackup demoPrims demoAmbient demoWorld (some demoUpload)).2 demoWrongKeyQuery).2
    (helloBytes.map (fun b => b + 10)) (helloBytes.map (fun b => b + 10 - 12))
    (by decide) (by decide) (by decide) (by decide)

/-- C4. For every metadata record `M` produced by `/backup` and every field among `filename`,
`timestamp`, `version`, `iv`, `aesKey` and `fileHash`, replacing the value of that field by a
different value makes the string passed to `verifySignature` different from the string that
was signed, and `/verifyMetadata` answers `valid = false` (a signature made for one string
not being accepted for another). -/
theorem tampered_field_rejected {σ : Type} (C : Prims σ) (A : Ambient) (w : World σ)
    (file : Option Upload) (cid : JSString) (M : Json) (hbind : SignBinds C)
    (hb : (postBackup C A w file).1 = ⟨200, none, .json (backupJson cid M)⟩)
    (k : JSString) (hk : k ∈ signedKeys) (v : Json) (hv : v.plain = true)
    (hne : getProp M.members k ≠ some v) :
    stringify (.obj (deleteProp (replaceProp k v M.members) (js "signature"))) ≠
        stringify (.obj (deleteProp M.members (js "signature"))) ∧
      getVerifyMetadata C (some (stringify (.obj (replaceProp k v M.members)))) =
        some ⟨200, none, .json (validJson false)⟩ := by
  obtain ⟨up, P, key, iv, enc, sig, _, _, _, _, _, hsig, hM, _⟩ :=
    backup_ok_inv C A w file cid M hb
  subst hM
  rw [metadataFields_eq] at hsig
  simp only [Json.members, metadataFields_eq] at hne ⊢
  obtain ⟨v1, v2, v3, v4, v5, v6, h1, h2, h3, h4, h5, h6, hrep, hdiff⟩ :=
    replace_signed_field (.str up.originalname) (.str A.isoTime) (.num 1)
      (.str (hexEncode iv)) (.str (hexEncode key)) (.str (sha256Hex P))
      (.str (hexEncode sig)) rfl rfl rfl rfl rfl rfl k hk v hv hne
  have hold : deleteProp (recordFields (.str up.originalname) (.str A.isoTime) (.num 1)
      (.str (hexEncode iv)) (.str (hexEncode key)) (.str (sha256Hex P)) ++
      [(js "signature", .str (hexEncode sig))]) (js "signature") =
      recordFields (.str up.originalname) (.str A.isoTime) (.num 1)
      (.str (hexEncode iv)) (.str (hexEncode key)) (.str (sha256Hex P)) := rfl
  have hnew : deleteProp (recordFields v1 v2 v3 v4 v5 v6 ++
      [(js "signature", .str (hexEncode sig))]) (js "signature") =
      recordFields v1 v2 v3 v4 v5 v6 := rfl
  have hstr : stringify (.obj (recordFields v1 v2 v3 v4 v5 v6)) ≠
      stringify (.obj (recordFields (.str up.originalname) (.str A.isoTime) (.num 1)
        (.str (hexEncode iv)) (.str (hexEncode key)) (.str (sha256Hex P)))) := by
    intro heq
    have := stringify_injective _ _ (recordFields_plain v1 v2 v3 v4 v5 v6 h1 h2 h3 h4 h5 h6)
      (recordFields_plain (.str up.originalname) (.str A.isoTime) (.num 1)
        (.str (hexEncode iv)) (.str (hexEncode key)) (.str (sha256Hex P))
        rfl rfl rfl rfl rfl rfl) heq
    exact hdiff (Json.obj.inj this)
  rw [hrep, hnew, hold, verify_signedRecord C v1 v2 v3 v4 v5 v6 _ h1 h2 h3 h4 h5 h6,
    hexDecode_hexEncode]
  refine ⟨hstr, ?_⟩
  cases hver : C.rsaVerify (stringify (.obj (recordFields v1 v2 v3 v4 v5 v6))) sig with
  | false => rfl
  | true => exact absurd (hbind _ _ _ hsig hver) hstr

set_option maxRecDepth 1000000 in
theorem tampered_field_rejected_witness :
    getVerifyMetadata demoPrims (some (stringify (.obj (replaceProp (js "aesKey")
        (.str (hexEncode (List.replicate 32 9))) demoMetadata.members)))) =
      some ⟨200, none, .json (validJson false)⟩ :=
  (tampered_field_rejected demoPrims demoAmbient demoWorld (some demoUpload) demoBackupCid
    demoMetadata demo_signBinds demo_backup (js "aesKey") (by decide)
    (.str (hexEncode (List.replicate 32 9))) rfl (by decide)).2

set_option maxRecDepth 1000000 in
/-- C5, counterexample. In the metadata of the reference backup the signature has the hex
letter `b` (code 98) at index 1; putting the capital `B` (code 66) there changes one character
of the signature to a different character, yet `/verifyMetadata` still answers `valid = true`:
`Buffer.from(signature, 'hex')` reads hex letters in either case. -/
theorem signature_case_change_accepted :
    (postBackup demoPrims demoAmbient demoWorld (some demoUpload)).1 =
        ⟨200, none, .json (backupJson demoBackupCid demoMetadata)⟩ ∧
      strProp demoMetadata.members (js "signature") = some demoSignature ∧
      demoSignature.getD 1 0 = 98 ∧
      getVerifyMetadata demoPrims (some (stringify (.obj (replaceProp (js "signature")
          (.str (demoSignature.set 1 66)) demoMetadata.members)))) =
        some ⟨200, none, .json (validJson true)⟩ := by
  refine ⟨demo_backup, rfl, ?_, ?_⟩
  · decide
  · decide

/-- C5, amended. For every metadata record `M` produced by `/backup`, overwriting one character
of `M.signature` by any code unit makes `/verifyMetadata` answer `valid = false`, never an error,
unless the new code unit, read as `Buffer.from(signature, 'hex')` reads it (through its low 8
bits, hex letters in either case), has the same hex value as the old character: that is the same
hex letter in the other case, or a code unit above 255 whose low byte is the old character or
its other case. In that case the decoded signature is unchanged and the answer stays
`valid = true` (the signature scheme accepting, for a string, the signature it produces and no
other). -/
theorem signature_char_change {σ : Type} (C : Prims σ) (A : Ambient) (w : World σ)
    (file : Option Upload) (cid : JSString) (M : Json) (hacc : SignAccepted C)
    (huniq : SignUnique C)
    (hb : (postBackup C A w file).1 = ⟨200, none, .json (backupJson cid M)⟩)
    (s : JSString) (hs : strProp M.members (js "signature") = some s)
    (i : Nat) (hi : i < s.length) (c : Nat) :
    getVerifyMetadata C (some (stringify (.obj (replaceProp (js "signature")
        (.str (s.set i c)) M.members)))) =
      some ⟨200, none, .json (validJson (decide (unhexUnit c = unhexUnit (s.getD i 0))))⟩ := by
  obtain ⟨up, P, key, iv, enc, sig, _, _, _, _, _, hsig, hM, _⟩ :=
    backup_ok_inv C A w file cid M hb
  subst hM
  rw [metadataFields_eq] at hsig
  simp only [Json.members, metadataFields_eq] at hs ⊢
  have hs2 : strProp (recordFields (.str up.originalname) (.str A.isoTime) (.num 1)
      (.str (hexEncode iv)) (.str (hexEncode key)) (.str (sha256Hex P)) ++
      [(js "signature", .str (hexEncode sig))]) (js "signature") = some (hexEncode sig) := rfl
  rw [hs2] at hs
  cases hs
  have hrep : replaceProp (js "signature") (.str ((hexEncode sig).set i c))
      (recordFields (.str up.originalname) (.str A.isoTime) (.num 1)
      (.str (hexEncode iv)) (.str (hexEncode key)) (.str (sha256Hex P)) ++
      [(js "signature", .str (hexEncode sig))]) =
      recordFields (.str up.originalname) (.str A.isoTime) (.num 1)
      (.str (hexEncode iv)) (.str (hexEncode key)) (.str (sha256Hex P)) ++
      [(js "signature", .str ((hexEncode sig).set i c))] := rfl
  rw [hrep, verify_signedRecord C (.str up.originalname) (.str A.isoTime) (.num 1)
    (.str (hexEncode iv)) (.str (hexEncode key)) (.str (sha256Hex P)) _ rfl rfl rfl rfl rfl rfl]
  have hset := hexDecode_set sig i c hi
  by_cases hu : unhexUnit c = unhexUnit ((hexEncode sig).getD i 0)
  · rw [hset.2 hu, hacc _ _ hsig, decide_eq_true hu]
  · have hne : hexDecode ((hexEncode sig).set i c) ≠ sig := fun h => hu (hset.1 h)
    cases hver : C.rsaVerify (stringify (.obj (recordFields (.str up.originalname)
        (.str A.isoTime) (.num 1) (.str (hexEncode iv)) (.str (hexEncode key))
        (.str (sha256Hex P))))) (hexDecode ((hexEncode sig).set i c)) with
    | false => rw [decide_eq_false hu]
    | true => exact absurd (huniq _ _ _ hsig hver) hne

set_option maxRecDepth 1000000 in
theorem signature_char_change_witness :
    getVerifyMetadata demoPrims (some (stringify (.obj (replaceProp (js "signature")
          (.str (demoSignature.set 1 99)) demoMetadata.members)))) =
        some ⟨200, none, .json (validJson false)⟩ ∧
      getVerifyMetadata demoPrims (some (stringify (.obj (replaceProp (js "signature")
          (.str (demoSignature.set 1 354)) demoMetadata.members)))) =
        some ⟨200, none, .json (validJson true)⟩ :=
  ⟨signature_char_change demoPrims demoAmbient demoWorld (some demoUpload) demoBackupCid
      demoMetadata demo_signAccepted demo_signUnique demo_backup demoSignature rfl 1 (by decide)
      99,
    signature_char_change demoPrims demoAmbient demoWorld (some demoUpload) demoBackupCid
      demoMetadata demo_signAccepted demo_signUnique demo_backup demoSignature rfl 1 (by decide)
      354⟩

set_option maxRecDepth 1000000 in
/-- C6, counterexample. The metadata of the reference backup verifies, but the same fields
with `timestamp` written before `filename` are answered `valid = false`: the string that is
verified follows the order of the caller's JSON text. -/
theorem reordered_fields_rejected :
    (postBackup demoPrims demoAmbient demoWorld (some demoUpload)).1 =
        ⟨200, none, .json (backupJson demoBackupCid demoMetadata)⟩ ∧
      demoReordered.Perm demoMetadata.members ∧
      getVerifyMetadata demoPrims (some (stringify demoMetadata)) =
        some ⟨200, none, .json (validJson true)⟩ ∧
      getVerifyMetadata demoPrims (some (stringify (.obj demoReordered))) =
        some ⟨200, none, .json (validJson false)⟩ := by
  refine ⟨demo_backup, ?_, ?_, ?_⟩
  · decide
  · decide
  · decide

/-- C6, amended. Signature validity depends on the order of the six signed fields. For every
metadata record `M` produced by `/backup` and every reordering of its fields in the JSON text,
`/verifyMetadata` answers `valid = true` exactly when the six signed fields still stand in the
order in which `/backup` wrote them (only the place of `signature` is free): what is signed and
verified is `JSON.stringify` in the property order of the object, not a sorted canonical form
(a signature being accepted for the string it was made for and for no other). -/
theorem reordering_verdict {σ : Type} (C : Prims σ) (A : Ambient) (w : World σ)
    (file : Option Upload) (cid : JSString) (M : Json) (hacc : SignAccepted C)
    (hbind : SignBinds C)
    (hb : (postBackup C A w file).1 = ⟨200, none, .json (backupJson cid M)⟩)
    (L : List (JSString × Json)) (hL : L.Perm M.members) :
    getVerifyMetadata C (some (stringify (.obj L))) =
      some ⟨200, none, .json (validJson
        (decide (deleteProp L (js "signature") = deleteProp M.members (js "signature"))))⟩ := by
  obtain ⟨up, P, key, iv, enc, sig, _, _, _, _, _, hsig, hM, _⟩ :=
    backup_ok_inv C A w file cid M hb
  subst hM
  simp only [Json.members] at hL ⊢
  have hpM := metadata_plain up.originalname A.isoTime (hexEncode iv) (hexEncode key)
    (sha256Hex P) (.str (hexEncode sig)) rfl
  have hpL := obj_plain_perm L _ hL hpM
  have hmem : (js "signature", Json.str (hexEncode sig)) ∈ L :=
    hL.mem_iff.2 (by simp)
  have hget := getProp_of_mem L (js "signature") (.str (hexEncode sig))
    ((obj_plain_iff L).1 hpL).1 hmem
  rw [verify_of_plain C L hpL]
  simp only [deleteProp_signature, verifyParsed, hget, verifySignature, hexDecode_hexEncode]
  by_cases heq : deleteProp L (js "signature") =
      metadataFields up.originalname A.isoTime (hexEncode iv) (hexEncode key) (sha256Hex P)
  · rw [heq, hacc _ _ hsig, decide_eq_true rfl]
  · rw [decide_eq_false heq]
    cases hver : C.rsaVerify (stringify (.obj (deleteProp L (js "signature")))) sig with
    | false => rfl
    | true =>
      have hstr := hbind _ _ _ hsig hver
      have hpd := obj_plain_delete L (js "signature") hpL
      have hp6 : (Json.obj (metadataFields up.originalname A.isoTime (hexEncode iv)
          (hexEncode key) (sha256Hex P))).plain = true :=
        recordFields_plain (.str up.originalname) (.str A.isoTime) (.num 1)
          (.str (hexEncode iv)) (.str (hexEncode key)) (.str (sha256Hex P)) rfl rfl rfl rfl rfl rfl
      exact absurd (Json.obj.inj (stringify_injective _ _ hpd hp6 hstr)) heq

set_option maxRecDepth 1000000 in
theorem reordering_verdict_witness :
    getVerifyMetadata demoPrims (some (stringify (.obj demoSignatureFirst))) =
      some ⟨200, none, .json (validJson true)⟩ :=
  reordering_verdict demoPrims demoAmbient demoWorld (some demoUpload) demoBackupCid demoMetadata
    demo_signAccepted demo_signBinds demo_backup demoSignatureFirst (by decide)

/-- C7. For every uploaded file with bytes `P`, the `fileHash` in the metadata returned by
`/backup` is the lowercase hex SHA-256 digest of `P` itself, the plaintext read from the upload
and not the ciphertext; for `P` the five bytes of `hello` it is
`2cf24dba5fb0a30e26e83b2ac5b9e29e1b161e5c1fa7425e73043362938b9824`. -/
theorem fileHash_is_plaintext_digest {σ : Type} (C : Prims σ) (A : Ambient) (w : World σ)
    (up : Upload) (P : Bytes) (cid : JSString) (M : Json)
    (hP : readFileSync w.files up.path = .ok P)
    (hb : (postBackup C A w (some up)).1 = ⟨200, none, .json (backupJson cid M)⟩) :
    strProp M.members (js "fileHash") = some (hexEncode (SHA256.digest P)) ∧
      (∀ c ∈ hexEncode (SHA256.digest P), isLowerHex c = true) ∧
      (P = helloBytes → strProp M.members (js "fileHash") =
        some (js "2cf24dba5fb0a30e26e83b2ac5b9e29e1b161e5c1fa7425e73043362938b9824")) := by
  obtain ⟨up2, P2, key, iv, enc, sig, hup, hP2, _, _, _, _, hM, _⟩ :=
    backup_ok_inv C A w (some up) cid M hb
  cases hup
  rw [hP] at hP2
  cases hP2
  subst hM
  have hh : strProp (metadataFields up.originalname A.isoTime (hexEncode iv) (hexEncode key)
      (sha256Hex P) ++ [(js "signature", .str (hexEncode sig))]) (js "fileHash") =
      some (hexEncode (SHA256.digest P)) := strProp_fileHash _ _ _ _ _ _
  refine ⟨hh, hexEncode_lowerHex _, ?_⟩
  intro hhello
  subst hhello
  rw [Json.members, hh]
  decide

theorem fileHash_is_plaintext_digest_witness :
    strProp demoMetadata.members (js "fileHash") =
      some (js "2cf24dba5fb0a30e26e83b2ac5b9e29e1b161e5c1fa7425e73043362938b9824") :=
  (fileHash_is_plaintext_digest demoPrims demoAmbient demoWorld demoUpload helloBytes
    demoBackupCid demoMetadata (by decide) demo_backup).2.2 rfl

set_option maxRecDepth 1000000 in
/-- C8, counterexample. The metadata of the reference backup has no field `symmetricKey`; its
fields are `filename`, `timestamp`, `version`, `iv`, `aesKey`, `fileHash`, `signature`. -/
theorem no_symmetricKey_field :
    (postBackup demoPrims demoAmbient demoWorld (some demoUpload)).1 =
        ⟨200, none, .json (backupJson demoBackupCid demoMetadata)⟩ ∧
      getProp demoMetadata.members (js "symmetricKey") = none ∧
      demoMetadata.members.map Prod.fst ≠
        [js "filename", js "timestamp", js "version", js "iv", js "symmetricKey",
          js "fileHash", js "signature"] := by
  refine ⟨demo_backup, ?_, ?_⟩
  · decide
  · decide

/-- C8, amended. Every metadata record returned by `/backup` stores the per-backup AES key, hex
encoded, under the field named `aesKey`; its fields are exactly `filename`, `timestamp`,
`version`, `iv`, `aesKey`, `fileHash`, `signature`, and there is no field `symmetricKey`. -/
theorem metadata_field_set {σ : Type} (C : Prims σ) (A : Ambient) (w : World σ)
    (file : Option Upload) (cid : JSString) (M : Json)
    (hb : (postBackup C A w file).1 = ⟨200, none, .json (backupJson cid M)⟩) :
    M = .obj M.members ∧
      M.members.map Prod.fst =
        [js "filename", js "timestamp", js "version", js "iv", js "aesKey", js "fileHash",
          js "signature"] ∧
      (∃ key, A.randomKey = .ok key ∧ strProp M.members (js "aesKey") = some (hexEncode key)) ∧
      getProp M.members (js "symmetricKey") = none := by
  obtain ⟨up, P, key, iv, enc, sig, _, _, hk, _, _, _, hM, _⟩ :=
    backup_ok_inv C A w file cid M hb
  subst hM
  exact ⟨rfl, rfl, ⟨key, hk, rfl⟩, rfl⟩

theorem metadata_field_set_witness :
    demoMetadata.members.map Prod.fst =
      [js "filename", js "timestamp", js "version", js "iv", js "aesKey", js "fileHash",
        js "signature"] :=
  (metadata_field_set demoPrims demoAmbient demoWorld (some demoUpload) demoBackupCid
    demoMetadata demo_backup).2.1

/-- C9. For every successful `/backup` of a file with bytes `P`, the returned metadata has
`version` the integer 1, `iv` 32 lowercase hex characters that decode to 16 bytes, `aesKey` 64
lowercase hex characters that decode to 32 bytes, and `fileHash` 64 lowercase hex characters;
and the ciphertext that was put into the store under the returned CID is the encryption of `P`
under exactly the key and IV that the metadata hold. -/
theorem metadata_shape_and_key {σ : Type} (C : Prims σ) (A : Ambient) (w : World σ)
    (up : Upload) (P : Bytes) (cid : JSString) (M : Json)
    (hP : readFileSync w.files up.path = .ok P)
    (hb : (postBackup C A w (some up)).1 = ⟨200, none, .json (backupJson cid M)⟩) :
    getProp M.members (js "version") = some (.num 1) ∧
    ∃ ivHex keyHex hashHex enc,
      strProp M.members (js "iv") = some ivHex ∧ ivHex.length = 32 ∧
        (∀ c ∈ ivHex, isLowerHex c = true) ∧ (hexDecode ivHex).length = 16 ∧
      strProp M.members (js "aesKey") = some keyHex ∧ keyHex.length = 64 ∧
        (∀ c ∈ keyHex, isLowerHex c = true) ∧ (hexDecode keyHex).length = 32 ∧
      strProp M.members (js "fileHash") = some hashHex ∧ hashHex.length = 64 ∧
        (∀ c ∈ hashHex, isLowerHex c = true) ∧
      C.aesEncrypt (hexDecode keyHex) (hexDecode ivHex) P = .ok enc ∧
      C.heliaAdd w.helia (up.path ++ js "_encrypted") enc =
        (.ok cid, (postBackup C A w (some up)).2.helia) := by
  obtain ⟨up2, P2, key, iv, enc, sig, hup, hP2, hk, hiv, henc, _, hM, hadd⟩ :=
    backup_ok_inv C A w (some up) cid M hb
  cases hup
  rw [hP] at hP2
  cases hP2
  subst hM
  have hkl := A.keyLength key hk
  have hil := A.ivLength iv hiv
  refine ⟨rfl, hexEncode iv, hexEncode key, sha256Hex P, enc, rfl, ?_, hexEncode_lowerHex iv, ?_,
    rfl, ?_, hexEncode_lowerHex key, ?_, rfl, sha256Hex_length P, hexEncode_lowerHex _, ?_, hadd⟩
  · rw [hexEncode_length, hil]
  · rw [hexDecode_hexEncode, hil]
  · rw [hexEncode_length, hkl]
  · rw [hexDecode_hexEncode, hkl]
  · rw [hexDecode_hexEncode, hexDecode_hexEncode]; exact henc

theorem metadata_shape_and_key_witness :
    getProp demoMetadata.members (js "version") = some (.num 1) :=
  (metadata_shape_and_key demoPrims demoAmbient demoWorld demoUpload helloBytes demoBackupCid
    demoMetadata (by decide) demo_backup).1

/-- C10. Backup is all-or-nothing towards the caller. Every `/backup` response is either the
success body, with the CID that the store put returned and the metadata, or the status 500
error body, whose only fields are `error` and `details`: no `cid` and no metadata field. When
key or IV generation, encryption, signing or the store put fails the response is that error
body. (Hashing a buffer has no failure case.) -/
theorem backup_all_or_nothing {σ : Type} (C : Prims σ) (A : Ambient) (w : World σ)
    (file : Option Upload) :
    ((∃ cid M up enc, (postBackup C A w file).1 = ⟨200, none, .json (backupJson cid M)⟩ ∧
        file = some up ∧
        C.heliaAdd w.helia (up.path ++ js "_encrypted") enc =
          (.ok cid, (postBackup C A w file).2.helia)) ∨
      (∃ e, (postBackup C A w file).1 = ⟨500, none,
        .json (.obj [(js "error", .str (js "Error during backup process.")),
          (js "details", .str e)])⟩)) ∧
    (∀ up P, file = some up → readFileSync w.files up.path = .ok P →
      ((∃ e, A.randomKey = .error e) ∨ (∃ e, A.randomIv = .error e) ∨
        (∃ key iv e, A.randomKey = .ok key ∧ A.randomIv = .ok iv ∧
          C.aesEncrypt key iv P = .error e) ∨
        (∃ key iv e, A.randomKey = .ok key ∧ A.randomIv = .ok iv ∧
          C.rsaSign (stringify (.obj (metadataFields up.originalname A.isoTime (hexEncode iv)
            (hexEncode key) (sha256Hex P)))) = .error e) ∨
        (∃ key iv enc e s, A.randomKey = .ok key ∧ A.randomIv = .ok iv ∧
          C.aesEncrypt key iv P = .ok enc ∧
          C.heliaAdd w.helia (up.path ++ js "_encrypted") enc = (.error e, s))) →
      ∃ e, (postBackup C A w file).1 = ⟨500, none,
        .json (.obj [(js "error", .str (js "Error during backup process.")),
          (js "details", .str e)])⟩) := by
  have hcases : (∃ cid M, (postBackup C A w file).1 = ⟨200, none, .json (backupJson cid M)⟩) ∨
      (∃ e, (postBackup C A w file).1 = ⟨500, none,
        .json (.obj [(js "error", .str (js "Error during backup process.")),
          (js "details", .str e)])⟩) := by
    unfold postBackup
    cases backupSteps C A w file with
    | mk r w2 =>
      cases r with
      | error e => exact Or.inr ⟨e, rfl⟩
      | ok p => exact Or.inl ⟨p.1, p.2, rfl⟩
  constructor
  · rcases hcases with ⟨cid, M, h⟩ | h
    · obtain ⟨up, P, key, iv, enc, sig, hup, _, _, _, _, _, _, hadd⟩ :=
        backup_ok_inv C A w file cid M h
      exact Or.inl ⟨cid, M, up, enc, h, hup, hadd⟩
    · exact Or.inr h
  · intro up P hfile hP hfail
    rcases hcases with ⟨cid, M, h⟩ | h
    · obtain ⟨up2, P2, key, iv, enc, sig, hup, hP2, hk, hiv, henc, hsig, _, hadd⟩ :=
        backup_ok_inv C A w file cid M h
      rw [hfile] at hup
      cases hup
      rw [hP] at hP2
      cases hP2
      rcases hfail with ⟨e, he⟩ | ⟨e, he⟩ | ⟨k2, i2, e, hk2, hi2, he⟩ |
        ⟨k2, i2, e, hk2, hi2, he⟩ | ⟨k2, i2, enc2, e, s, hk2, hi2, he2, he⟩
      · rw [hk] at he; cases he
      · rw [hiv] at he; cases he
      · rw [hk] at hk2; rw [hiv] at hi2; cases hk2; cases hi2
        rw [henc] at he; cases he
      · rw [hk] at hk2; rw [hiv] at hi2; cases hk2; cases hi2
        rw [hsig] at he; cases he
      · rw [hk] at hk2; rw [hiv] at hi2; cases hk2; cases hi2
        rw [henc] at he2; cases he2
        rw [hadd] at he; cases he
    · exact h

theorem stringify_ne_nil (v : Json) : stringify v ≠ [] := by
  obtain ⟨c, t, h, _⟩ := stringify_head v
  rw [h]; simp

theorem verify_of_plain_value {σ : Type} (C : Prims σ) (v : Json) (hp : v.plain = true) :
    getVerifyMetadata C (some (stringify v)) = some (verifyParsed C v) := by
  simp only [getVerifyMetadata, falsy_some _ (stringify_ne_nil v), Bool.false_eq_true,
    if_false, Option.getD_some, parse_stringify _ hp]

/-- Deleting one of the six signed fields from a signed record leaves the signature in place and
five fields beside it. -/
theorem delete_signed_field (o1 o2 o3 o4 o5 o6 sg : Json) (k : JSString) (hk : k ∈ signedKeys) :
    getProp (deleteProp (recordFields o1 o2 o3 o4 o5 o6 ++ [(js "signature", sg)]) k)
        (js "signature") = some sg ∧
      (deleteProp (deleteProp (recordFields o1 o2 o3 o4 o5 o6 ++ [(js "signature", sg)]) k)
        (js "signature")).length = 5 := by
  simp only [signedKeys, List.mem_cons, List.mem_singleton, List.not_mem_nil, or_false] at hk
  rcases hk with rfl | rfl | rfl | rfl | rfl | rfl
  · exact ⟨rfl, rfl⟩
  · exact ⟨rfl, rfl⟩
  · exact ⟨rfl, rfl⟩
  · exact ⟨rfl, rfl⟩
  · exact ⟨rfl, rfl⟩
  · exact ⟨rfl, rfl⟩

/-- The answer of `/verifyMetadata` to a signed record from which one of the six signed fields
was deleted, the signature being the one made for the six fields. -/
theorem verify_deleted_field {σ : Type} (C : Prims σ) (hbind : SignBinds C)
    (o1 o2 o3 o4 o5 o6 : Json) (h1 : o1.plain = true) (h2 : o2.plain = true)
    (h3 : o3.plain = true) (h4 : o4.plain = true) (h5 : o5.plain = true) (h6 : o6.plain = true)
    (sig : Bytes) (hsig : C.rsaSign (stringify (.obj (recordFields o1 o2 o3 o4 o5 o6))) = .ok sig)
    (k : JSString) (hk : k ∈ signedKeys) :
    getVerifyMetadata C (some (stringify (.obj (deleteProp
        (recordFields o1 o2 o3 o4 o5 o6 ++ [(js "signature", .str (hexEncode sig))]) k)))) =
      some ⟨200, none, .json (validJson false)⟩ := by
  have hpR := signedRecord_plain o1 o2 o3 o4 o5 o6 (.str (hexEncode sig)) h1 h2 h3 h4 h5 h6 rfl
  have hpL := obj_plain_delete _ k hpR
  have hpD := obj_plain_delete _ (js "signature") hpL
  obtain ⟨hg, hlen⟩ := delete_signed_field o1 o2 o3 o4 o5 o6 (.str (hexEncode sig)) k hk
  rw [verify_of_plain C _ hpL]
  simp only [verifyParsed, hg, verifySignature, hexDecode_hexEncode]
  cases hver : C.rsaVerify (stringify (.obj (deleteProp (deleteProp
      (recordFields o1 o2 o3 o4 o5 o6 ++ [(js "signature", .str (hexEncode sig))]) k)
      (js "signature")))) sig with
  | false => rfl
  | true =>
    have hstr := hbind _ _ _ hsig hver
    have hobj := stringify_injective _ _ hpD (recordFields_plain o1 o2 o3 o4 o5 o6 h1 h2 h3 h4 h5 h6)
      hstr
    have hl := congrArg List.length (Json.obj.inj hobj)
    rw [hlen] at hl
    simp [recordFields] at hl

/-- The answer of `verifyParsed` for a value whose `signature` is a string. -/
theorem verifyParsed_string {σ : Type} (C : Prims σ) (v : Json) (s : JSString)
    (hs : getProp v.members (js "signature") = some (.str s)) :
    verifyParsed C v = ⟨200, none, .json (validJson
      (verifySignature C (stringify (.obj (deleteProp v.members (js "signature")))) s))⟩ := by
  cases v with
  | obj m => simp only [Json.members] at hs ⊢; simp only [verifyParsed, hs]
  | null => simp [Json.members, getProp] at hs
  | bool b => simp [Json.members, getProp] at hs
  | num n => simp [Json.members, getProp] at hs
  | str t => simp [Json.members, getProp] at hs
  | arr l => simp [Json.members, getProp] at hs

/-- The answer of `verifyParsed` for a value with no string as `signature`. -/
theorem verifyParsed_no_string {σ : Type} (C : Prims σ) (v : Json)
    (hs : ∀ s, getProp v.members (js "signature") ≠ some (.str s)) :
    verifyParsed C v = ⟨500, none, .json (errorJson "Error verifying metadata signature.")⟩ := by
  cases v with
  | obj m =>
    simp only [Json.members] at hs
    cases hg : getProp m (js "signature") with
    | none => simp only [verifyParsed, hg]
    | some x =>
      cases x with
      | str t => exact absurd hg (hs t)
      | null => simp only [verifyParsed, hg]
      | bool b => simp only [verifyParsed, hg]
      | num n => simp only [verifyParsed, hg]
      | arr l => simp only [verifyParsed, hg]
      | obj l => simp only [verifyParsed, hg]
  | null => rfl
  | bool b => rfl
  | num n => rfl
  | str t => rfl
  | arr l => rfl

set_option maxRecDepth 1000000 in
/-- C11, counterexample. The reference metadata without `filename` lacks a required field, yet
the answer is `valid = false` and not an error; the reference metadata with all seven fields
but a number as `signature` is answered with the status 500 error. -/
theorem missing_field_not_an_error :
    getProp demoNoFilename (js "filename") = none ∧
      getVerifyMetadata demoPrims (some (stringify (.obj demoNoFilename))) =
        some ⟨200, none, .json (validJson false)⟩ ∧
      demoNumericSignature.map Prod.fst = demoMetadata.members.map Prod.fst ∧
      getVerifyMetadata demoPrims (some (stringify (.obj demoNumericSignature))) =
        some ⟨500, none, .json (errorJson "Error verifying metadata signature.")⟩ := by
  refine ⟨?_, ?_, ?_, ?_⟩
  · decide
  · decide
  · decide
  · decide

/-- C11, amended. `/verifyMetadata` checks no field but `signature`. A missing or empty
`metadata` parameter is answered with status 400, `Missing metadata parameter.`; a text that is
not JSON with the error (status 500, `Error verifying metadata signature.`). A text that parses
to a value `v` is answered with that error if and only if `v` has no own property `signature`
holding a string (which includes a `v` that is not an object); whenever `signature` is a string
`s` the answer is status 200 with `valid` the result of `verifySignature` on the serialization
of the remaining properties and `s`, whatever other fields are present or missing, and never an
error. The serialization of every value within the model (safe integers, distinct property
names that are no array indices) is such a text. In particular a record produced by `/backup`
from which one of the six signed fields was removed is answered `valid = false`, not an error
(a signature not being accepted for a string other than the signed one). -/
theorem verify_error_iff_no_string_signature {σ : Type} (C : Prims σ) :
    (∀ metadata, falsy metadata = true →
      getVerifyMetadata C metadata =
        some ⟨400, none, .json (errorJson "Missing metadata parameter.")⟩) ∧
    (∀ text, text ≠ [] → parse text = .error .malformed →
      getVerifyMetadata C (some text) =
        some ⟨500, none, .json (errorJson "Error verifying metadata signature.")⟩) ∧
    (∀ text v, text ≠ [] → parse text = .ok v →
      (getVerifyMetadata C (some text) =
          some ⟨500, none, .json (errorJson "Error verifying metadata signature.")⟩ ↔
        ∀ s, getProp v.members (js "signature") ≠ some (.str s)) ∧
      (∀ s, getProp v.members (js "signature") = some (.str s) →
        getVerifyMetadata C (some text) = some ⟨200, none, .json (validJson
          (verifySignature C (stringify (.obj (deleteProp v.members (js "signature")))) s))⟩)) ∧
    (∀ v, v.plain = true → stringify v ≠ [] ∧ parse (stringify v) = .ok v) ∧
    (SignBinds C → ∀ (A : Ambient) (w : World σ) (file : Option Upload) (cid : JSString)
      (M : Json) (k : JSString),
      (postBackup C A w file).1 = ⟨200, none, .json (backupJson cid M)⟩ → k ∈ signedKeys →
      getVerifyMetadata C (some (stringify (.obj (deleteProp M.members k)))) =
        some ⟨200, none, .json (validJson false)⟩) := by
  refine ⟨?_, ?_, ?_, fun v hp => ⟨stringify_ne_nil v, parse_stringify v hp⟩, ?_⟩
  · intro metadata hm
    simp only [getVerifyMetadata, hm, if_true]
  · intro text ht hp
    simp only [getVerifyMetadata, falsy_some _ ht, Bool.false_eq_true, if_false,
      Option.getD_some, hp]
  · intro text v ht hp
    have hv : getVerifyMetadata C (some text) = some (verifyParsed C v) := by
      simp only [getVerifyMetadata, falsy_some _ ht, Bool.false_eq_true, if_false,
        Option.getD_some, hp]
    rw [hv]
    refine ⟨⟨?_, fun h => by rw [verifyParsed_no_string C v h]⟩,
      fun s hs => by rw [verifyParsed_string C v s hs]⟩
    intro h s hs
    rw [verifyParsed_string C v s hs] at h
    simp at h
  · intro hbind A w file cid M k hb hk
    obtain ⟨up, P, key, iv, enc, sig, _, _, _, _, _, hsig, hM, _⟩ :=
      backup_ok_inv C A w file cid M hb
    subst hM
    rw [metadataFields_eq] at hsig
    simp only [Json.members, metadataFields_eq]
    exact verify_deleted_field C hbind (.str up.originalname) (.str A.isoTime) (.num 1)
      (.str (hexEncode iv)) (.str (hexEncode key)) (.str (sha256Hex P)) rfl rfl rfl rfl rfl rfl
      sig hsig k hk

set_option maxRecDepth 1000000 in
theorem verify_error_iff_no_string_signature_witness :
    getVerifyMetadata demoPrims (some (stringify (.obj demoNumericSignature))) =
        some ⟨500, none, .json (errorJson "Error verifying metadata signature.")⟩ ∧
      getVerifyMetadata demoPrims (some (js "filename")) =
        some ⟨500, none, .json (errorJson "Error verifying metadata signature.")⟩ ∧
      getVerifyMetadata demoPrims
          (some (stringify (.obj (deleteProp demoMetadata.members (js "iv"))))) =
        some ⟨200, none, .json (validJson false)⟩ :=
  ⟨((verify_error_iff_no_string_signature demoPrims).2.2.1
      (stringify (.obj demoNumericSignature)) (.obj demoNumericSignature) (by decide)
      (by decide)).1.2
      (by
        intro s h
        have h5 : getProp (Json.obj demoNumericSignature).members (js "signature") =
            some (.num 5) := by decide
        rw [h5] at h
        cases h),
    (verify_error_iff_no_string_signature demoPrims).2.1 (js "filename") (by decide)
      (by decide),
    (verify_error_iff_no_string_signature demoPrims).2.2.2.2 demo_signBinds demoAmbient
      demoWorld (some demoUpload) demoBackupCid demoMetadata (js "iv") demo_backup
      (by decide)⟩

/-- The reference cipher never fails with the not-found message of the reference store. -/
theorem demo_cipher_message (key iv data : Bytes) :
    demoPrims.aesDecrypt key iv data ≠ .error (js "Block not found") := by
  intro h
  simp only [demoPrims] at h
  split_ifs at h
  have h2 := Except.error.inj h
  revert h2
  decide

/-- C12. For every complete `/restore` request whose CID the store does not hold (the store
lookup fails, with the not-found message `e`), the cipher never failing with that message,
`/restore` answers with status 500 and the body `error: Error during restore process.`,
`details: e`, the not-found message, and sends no file bytes. That response differs from the
integrity failure (status 400, `File integrity check failed.`), and it differs from the
response of every call that ends in a decryption failure: that one has the same status and
`error` text and carries the message of the cipher in `details`. -/
theorem restore_unknown_cid {σ : Type} (C : Prims σ) (A : Ambient) (w : World σ)
    (q : RestoreQuery) (e : JSString)
    (hq : (falsy q.cid || falsy q.iv || falsy q.aesKey || falsy q.expectedHash) = false)
    (hmiss : C.heliaGet w.helia (q.cid.getD []) = .error e)
    (hmsg : ∀ key iv data, C.aesDecrypt key iv data ≠ .error e) :
    getRestore C A w q = ⟨500, none, .json (errorDetails "Error during restore process." e)⟩ ∧
    (∀ status disposition B, getRestore C A w q ≠ ⟨status, disposition, .buffer B⟩) ∧
    getRestore C A w q ≠ ⟨400, none, .json (errorJson "File integrity check failed.")⟩ ∧
    (∀ (A2 : Ambient) (w2 : World σ) (q2 : RestoreQuery) (enc : Bytes) (e2 : JSString),
      (falsy q2.cid || falsy q2.iv || falsy q2.aesKey || falsy q2.expectedHash) = false →
      C.heliaGet w2.helia (q2.cid.getD []) = .ok enc →
      decryptFile C enc (hexDecode (q2.aesKey.getD [])) (q2.iv.getD []) = .error e2 →
      (getRestore C A2 w2 q2 =
          ⟨500, none, .json (errorDetails "Error during restore process." e2)⟩ ∧
        getRestore C A w q ≠ getRestore C A2 w2 q2)) := by
  have h1 : getRestore C A w q =
      ⟨500, none, .json (errorDetails "Error during restore process." e)⟩ := by
    simp only [getRestore, hq, Bool.false_eq_true, if_false, getFileFromHelia, hmiss]
  refine ⟨h1, ?_, ?_, ?_⟩
  · intro status disposition B h
    rw [h1] at h
    simp at h
  · rw [h1]
    simp
  · intro A2 w2 q2 enc e2 hq2 hget hdec
    have h2 : getRestore C A2 w2 q2 =
        ⟨500, none, .json (errorDetails "Error during restore process." e2)⟩ := by
      simp only [getRestore, hq2, Bool.false_eq_true, if_false, getFileFromHelia, hget, hdec]
    refine ⟨h2, ?_⟩
    have hne : e ≠ e2 := by
      intro hee
      rw [← hee] at hdec
      exact hmsg _ _ _ hdec
    rw [h1, h2]
    simpa [errorDetails] using hne

set_option maxRecDepth 1000000 in
theorem restore_unknown_cid_witness :
    demoStore.helia.lookup (js "sha256-00") = none ∧
      getRestore demoPrims demoAmbient demoStore demoUnknownCidQuery =
        ⟨500, none,
          .json (errorDetails "Error during restore process." (js "Block not found"))⟩ ∧
      getRestore demoPrims demoAmbient demoStore demoShortKeyQuery =
        ⟨500, none,
          .json (errorDetails "Error during restore process." (js "Invalid key length"))⟩ ∧
      getRestore demoPrims demoAmbient demoStore demoUnknownCidQuery ≠
        getRestore demoPrims demoAmbient demoStore demoShortKeyQuery :=
  ⟨by decide,
    (restore_unknown_cid demoPrims demoAmbient demoStore demoUnknownCidQuery
      (js "Block not found") (by decide) (by decide) demo_cipher_message).1,
    by decide,
    ((restore_unknown_cid demoPrims demoAmbient demoStore demoUnknownCidQuery
      (js "Block not found") (by decide) (by decide) demo_cipher_message).2.2.2
      demoAmbient demoStore demoShortKeyQuery (helloBytes.map (fun b => b + 10))
      (js "Invalid key length") (by decide) (by decide) (by decide)).2⟩

set_option maxRecDepth 1000000 in
/-- C13, counterexample. For the stored ciphertext of the reference backup and a key of one
byte, which the cipher refuses, `/restore` and `/decryptFile` both answer with status 500 but
not with the same error: the bodies differ. -/
theorem decrypt_failure_bodies_differ :
    getFileFromHelia demoPrims demoCipherWorld demoBackupCid =
        readFileSync demoCipherWorld.files demoCipherUpload.path ∧
      getRestore demoPrims demoAmbient demoCipherWorld demoShortKeyQuery =
        ⟨500, none, .json (errorDetails "Error during restore process."
          (js "Invalid key length"))⟩ ∧
      (postDecryptFile demoPrims demoAmbient demoCipherWorld (some demoCipherUpload)
          demoShortKeyQuery.aesKey demoShortKeyQuery.iv demoShortKeyQuery.expectedHash).1 =
        ⟨500, none, .json (errorDetails "Error during file decryption."
          (js "Invalid key length"))⟩ ∧
      (postDecryptFile demoPrims demoAmbient demoCipherWorld (some demoCipherUpload)
          demoShortKeyQuery.aesKey demoShortKeyQuery.iv demoShortKeyQuery.expectedHash).1 ≠
        getRestore demoPrims demoAmbient demoCipherWorld demoShortKeyQuery := by
  refine ⟨?_, ?_, ?_, ?_⟩
  · decide
  · decide
  · decide
  · decide

/-- C13, amended. For every CID whose stored bytes are `C`, `/decryptFile` given the file `C`
and `/restore` given that CID, with the same `aesKey`, `iv` and non-empty `expectedHash`,
answer with the same status and, on success, the same file bytes (under attachment names that
start with `decrypted_` and `restored_`); the integrity failure is the same response; but a
decryption failure is reported with `Error during file decryption.` by the one and with
`Error during restore process.` by the other (same `details`), and a missing `aesKey` or `iv`
with `Missing aesKey or iv in request body.` and `Missing required query parameters.`. When
`expectedHash` is omitted, `/decryptFile` returns the decrypted bytes without integrity check. -/
theorem decryptFile_matches_restore {σ : Type} (C : Prims σ) (A A2 : Ambient) (w : World σ)
    (up : Upload) (cid : JSString) (stored : Bytes) (aesKey iv : Option JSString)
    (expectedHash : JSString) (hcid : cid ≠ []) (hh : expectedHash ≠ [])
    (hget : C.heliaGet w.helia cid = .ok stored)
    (hfile : readFileSync w.files up.path = .ok stored) :
    ((postDecryptFile C A2 w (some up) aesKey iv (some expectedHash)).1.status =
        (getRestore C A w ⟨some cid, iv, aesKey, some expectedHash⟩).status) ∧
    ((falsy aesKey || falsy iv) = true →
      getRestore C A w ⟨some cid, iv, aesKey, some expectedHash⟩ =
          ⟨400, none, .json (errorJson "Missing required query parameters.")⟩ ∧
        (postDecryptFile C A2 w (some up) aesKey iv (some expectedHash)).1 =
          ⟨400, none, .json (errorJson "Missing aesKey or iv in request body.")⟩) ∧
    ((falsy aesKey || falsy iv) = false →
      (∀ e, decryptFile C stored (hexDecode (aesKey.getD [])) (iv.getD []) = .error e →
        getRestore C A w ⟨some cid, iv, aesKey, some expectedHash⟩ =
            ⟨500, none, .json (errorDetails "Error during restore process." e)⟩ ∧
          (postDecryptFile C A2 w (some up) aesKey iv (some expectedHash)).1 =
            ⟨500, none, .json (errorDetails "Error during file decryption." e)⟩) ∧
      (∀ D, decryptFile C stored (hexDecode (aesKey.getD [])) (iv.getD []) = .ok D →
        sha256Hex D ≠ expectedHash →
        getRestore C A w ⟨some cid, iv, aesKey, some expectedHash⟩ =
            ⟨400, none, .json (errorJson "File integrity check failed.")⟩ ∧
          (postDecryptFile C A2 w (some up) aesKey iv (some expectedHash)).1 =
            ⟨400, none, .json (errorJson "File integrity check failed.")⟩) ∧
      (∀ D, decryptFile C stored (hexDecode (aesKey.getD [])) (iv.getD []) = .ok D →
        sha256Hex D = expectedHash →
        getRestore C A w ⟨some cid, iv, aesKey, some expectedHash⟩ =
            ⟨200, some (attachment "restored_" A.nowMs), .buffer D⟩ ∧
          (postDecryptFile C A2 w (some up) aesKey iv (some expectedHash)).1 =
            ⟨200, some (attachment "decrypted_" A2.nowMs), .buffer D⟩) ∧
      (∀ D, decryptFile C stored (hexDecode (aesKey.getD [])) (iv.getD []) = .ok D →
        (postDecryptFile C A2 w (some up) aesKey iv none).1 =
          ⟨200, some (attachment "decrypted_" A2.nowMs), .buffer D⟩)) := by
  have hc : falsy (some cid) = false := falsy_some cid hcid
  have he : falsy (some expectedHash) = false := falsy_some expectedHash hh
  have hul : ∃ fs2, unlinkSync w.files up.path = .ok fs2 := by
    unfold readFileSync at hfile
    unfold unlinkSync
    cases hl : w.files.lookup up.path with
    | none => rw [hl] at hfile; cases hfile
    | some d => exact ⟨_, rfl⟩
  obtain ⟨fs2, hfs2⟩ := hul
  by_cases hki : (falsy aesKey || falsy iv) = true
  · have hr : getRestore C A w ⟨some cid, iv, aesKey, some expectedHash⟩ =
        ⟨400, none, .json (errorJson "Missing required query parameters.")⟩ := by
      have hor : (falsy (some cid) || falsy iv || falsy aesKey ||
          falsy (some expectedHash)) = true := by
        rw [hc, he]
        simp only [Bool.or_eq_true] at hki
        rcases hki with h | h <;> simp [h]
      simp only [getRestore, hor, if_true]
    have hd : (postDecryptFile C A2 w (some up) aesKey iv (some expectedHash)).1 =
        ⟨400, none, .json (errorJson "Missing aesKey or iv in request body.")⟩ := by
      simp only [postDecryptFile, hfile, hki, if_true]
    refine ⟨by rw [hr, hd], fun _ => ⟨hr, hd⟩, fun h => ?_⟩
    rw [hki] at h
    cases h
  · have hki2 : (falsy aesKey || falsy iv) = false := by simpa using hki
    have hor : (falsy (some cid) || falsy iv || falsy aesKey ||
        falsy (some expectedHash)) = false := by
      simp only [Bool.or_eq_false_iff] at hki2 ⊢
      exact ⟨⟨⟨hc, hki2.2⟩, hki2.1⟩, he⟩
    cases hdec : decryptFile C stored (hexDecode (aesKey.getD [])) (iv.getD []) with
    | error e =>
      have hr : getRestore C A w ⟨some cid, iv, aesKey, some expectedHash⟩ =
          ⟨500, none, .json (errorDetails "Error during restore process." e)⟩ := by
        simp only [getRestore, hor, Bool.false_eq_true, if_false, getFileFromHelia,
          Option.getD_some, hget, hdec]
      have hd : (postDecryptFile C A2 w (some up) aesKey iv (some expectedHash)).1 =
          ⟨500, none, .json (errorDetails "Error during file decryption." e)⟩ := by
        simp only [postDecryptFile, hfile, hki2, Bool.false_eq_true, if_false, hdec]
      refine ⟨by rw [hr, hd], fun h => (by rw [hki2] at h; cases h), fun _ => ⟨?_, ?_, ?_, ?_⟩⟩
      · intro e2 h2
        cases h2
        exact ⟨hr, hd⟩
      · intro D h2; cases h2
      · intro D h2; cases h2
      · intro D h2; cases h2
    | ok D =>
      have hnone : (postDecryptFile C A2 w (some up) aesKey iv none).1 =
          ⟨200, some (attachment "decrypted_" A2.nowMs), .buffer D⟩ := by
        have hn : falsy (none : Option JSString) = true := rfl
        simp [postDecryptFile, hfile, hki2, hdec, hn, hfs2]
      by_cases hs : sha256Hex D = expectedHash
      · have hr : getRestore C A w ⟨some cid, iv, aesKey, some expectedHash⟩ =
            ⟨200, some (attachment "restored_" A.nowMs), .buffer D⟩ := by
          simp only [getRestore, hor, Bool.false_eq_true, if_false, getFileFromHelia,
            Option.getD_some, hget, hdec, hs, ne_eq, not_true_eq_false]
        have hd : (postDecryptFile C A2 w (some up) aesKey iv (some expectedHash)).1 =
            ⟨200, some (attachment "decrypted_" A2.nowMs), .buffer D⟩ := by
          simp [postDecryptFile, hfile, hki2, hdec, he, hs, hfs2]
        refine ⟨by rw [hr, hd], fun h => (by rw [hki2] at h; cases h),
          fun _ => ⟨?_, ?_, ?_, ?_⟩⟩
        · intro e2 h2; cases h2
        · intro D2 h2 h3; cases h2; exact absurd hs h3
        · intro D2 h2 _; cases h2; exact ⟨hr, hd⟩
        · intro D2 h2; cases h2; exact hnone
      · have hr : getRestore C A w ⟨some cid, iv, aesKey, some expectedHash⟩ =
            ⟨400, none, .json (errorJson "File integrity check failed.")⟩ := by
          simp only [getRestore, hor, Bool.false_eq_true, if_false, getFileFromHelia,
            Option.getD_some, hget, hdec, hs, ne_eq, not_false_eq_true, if_true]
        have hd : (postDecryptFile C A2 w (some up) aesKey iv (some expectedHash)).1 =
            ⟨400, none, .json (errorJson "File integrity check failed.")⟩ := by
          simp [postDecryptFile, hfile, hki2, hdec, he, hs, hfs2]
        refine ⟨by rw [hr, hd], fun h => (by rw [hki2] at h; cases h),
          fun _ => ⟨?_, ?_, ?_, ?_⟩⟩
        · intro e2 h2; cases h2
        · intro D2 h2 _; cases h2; exact ⟨hr, hd⟩
        · intro D2 h2 h3; cases h2; exact absurd h3 hs
        · intro D2 h2; cases h2; exact hnone

set_option maxRecDepth 1000000 in
theorem decryptFile_matches_restore_witness :
    (postDecryptFile demoPrims demoAmbient demoCipherWorld (some demoCipherUpload)
        (some (hexEncode (List.replicate 32 7))) (some (hexEncode (List.replicate 16 3)))
        (some (sha256Hex helloBytes))).1.status =
      (getRestore demoPrims demoAmbient demoCipherWorld
        ⟨some demoBackupCid, some (hexEncode (List.replicate 16 3)),
          some (hexEncode (List.replicate 32 7)), some (sha256Hex helloBytes)⟩).status :=
  (decryptFile_matches_restore demoPrims demoAmbient demoAmbient demoCipherWorld demoCipherUpload
    demoBackupCid (helloBytes.map (fun b => b + 10)) (some (hexEncode (List.replicate 32 7)))
    (some (hexEncode (List.replicate 16 3))) (sha256Hex helloBytes) (by decide) (by decide)
    (by decide) (by decide)).1

/-- What `/restore` leaves behind: the disk as it was, and the store as the one lookup left it
(untouched when the request is incomplete). -/
theorem getRestoreSteps_state {σ : Type} (C : Prims σ)
    (lookup : σ → JSString → Except JSString Bytes × σ) (A : Ambient) (w : World σ)
    (q : RestoreQuery) :
    (getRestoreSteps C lookup A w q).2.files = w.files ∧
      (getRestoreSteps C lookup A w q).2.helia =
        if falsy q.cid || falsy q.iv || falsy q.aesKey || falsy q.expectedHash then w.helia
        else (lookup w.helia (q.cid.getD [])).2 := by
  by_cases hq : (falsy q.cid || falsy q.iv || falsy q.aesKey || falsy q.expectedHash) = true
  · simp only [getRestoreSteps, hq, if_true, and_self]
  · have hq2 : (falsy q.cid || falsy q.iv || falsy q.aesKey || falsy q.expectedHash) = false := by
      simpa using hq
    cases hl : lookup w.helia (q.cid.getD []) with
    | mk r s =>
      cases r with
      | error e => simp only [getRestoreSteps, hq2, Bool.false_eq_true, if_false, hl, and_self]
      | ok enc =>
        cases hd : decryptFile C enc (hexDecode (q.aesKey.getD [])) (q.iv.getD []) with
        | error e =>
          simp only [getRestoreSteps, hq2, Bool.false_eq_true, if_false, hl, hd, and_self]
        | ok D =>
          by_cases hh : sha256Hex D = q.expectedHash.getD []
          · simp only [getRestoreSteps, hq2, Bool.false_eq_true, if_false, hl, hd, hh, ne_eq,
              not_true_eq_false, and_self]
          · simp only [getRestoreSteps, hq2, Bool.false_eq_true, if_false, hl, hd, hh, ne_eq,
              not_false_eq_true, if_true, and_self]

/-- The response of the state-passing handler is the response of `getRestore` when the lookup
returns what `heliaGet` returns. -/
theorem getRestoreSteps_response {σ : Type} (C : Prims σ)
    (lookup : σ → JSString → Except JSString Bytes × σ) (A : Ambient) (w : World σ)
    (q : RestoreQuery) (hget : (lookup w.helia (q.cid.getD [])).1 = C.heliaGet w.helia (q.cid.getD [])) :
    (getRestoreSteps C lookup A w q).1 = getRestore C A w q := by
  by_cases hq : (falsy q.cid || falsy q.iv || falsy q.aesKey || falsy q.expectedHash) = true
  · simp only [getRestoreSteps, getRestore, hq, if_true]
  · have hq2 : (falsy q.cid || falsy q.iv || falsy q.aesKey || falsy q.expectedHash) = false := by
      simpa using hq
    cases hl : lookup w.helia (q.cid.getD []) with
    | mk r s =>
      rw [hl] at hget
      simp only at hget
      cases r with
      | error e =>
        simp only [getRestoreSteps, getRestore, hq2, Bool.false_eq_true, if_false, hl,
          getFileFromHelia, ← hget]
      | ok enc =>
        cases hd : decryptFile C enc (hexDecode (q.aesKey.getD [])) (q.iv.getD []) with
        | error e =>
          simp only [getRestoreSteps, getRestore, hq2, Bool.false_eq_true, if_false, hl,
            getFileFromHelia, ← hget, hd]
        | ok D =>
          by_cases hh : sha256Hex D = q.expectedHash.getD []
          · simp only [getRestoreSteps, getRestore, hq2, Bool.false_eq_true, if_false, hl,
              getFileFromHelia, ← hget, hd, hh, ne_eq, not_true_eq_false]
          · simp only [getRestoreSteps, getRestore, hq2, Bool.false_eq_true, if_false, hl,
              getFileFromHelia, ← hget, hd, hh, ne_eq, not_false_eq_true, if_true]

/-- Two runs of `getRestore` on the same store contents, at any two moments and whatever is on
disk. -/
theorem getRestore_same_store {σ : Type} (C : Prims σ) (A1 A2 : Ambient) (w1 w2 : World σ)
    (q : RestoreQuery) (hstore : w1.helia = w2.helia) :
    (getRestore C A1 w1 q).status = (getRestore C A2 w2 q).status ∧
      (getRestore C A1 w1 q).body = (getRestore C A2 w2 q).body ∧
      (A1.nowMs = A2.nowMs → getRestore C A1 w1 q = getRestore C A2 w2 q) := by
  by_cases hq : (falsy q.cid || falsy q.iv || falsy q.aesKey || falsy q.expectedHash) = true
  · simp only [getRestore, hq, if_true, true_and, implies_true]
  · have hq2 : (falsy q.cid || falsy q.iv || falsy q.aesKey || falsy q.expectedHash) = false := by
      simpa using hq
    cases hg : C.heliaGet w2.helia (q.cid.getD []) with
    | error e =>
      simp only [getRestore, hq2, Bool.false_eq_true, if_false, getFileFromHelia, hstore, hg,
        true_and, implies_true]
    | ok enc =>
      cases hd : decryptFile C enc (hexDecode (q.aesKey.getD [])) (q.iv.getD []) with
      | error e =>
        simp only [getRestore, hq2, Bool.false_eq_true, if_false, getFileFromHelia, hstore, hg,
          hd, true_and, implies_true]
      | ok D =>
        by_cases hh : sha256Hex D = q.expectedHash.getD []
        · simp only [getRestore, hq2, Bool.false_eq_true, if_false, getFileFromHelia, hstore,
            hg, hd, hh, ne_eq, not_true_eq_false, true_and]
          intro hn
          rw [hn]
        · simp only [getRestore, hq2, Bool.false_eq_true, if_false, getFileFromHelia, hstore,
            hg, hd, hh, ne_eq, not_false_eq_true, if_true, true_and, implies_true]

/-- C14. Restore is deterministic and read-only. Whatever the store lookup does, `/restore`
leaves the disk as it was and the store as its one lookup left it; it puts nothing and writes
no file. Hence, the lookup being a read (it returns what `heliaGet` returns and leaves the
store as it is), a `/restore` call leaves the state unchanged, and a second call with the same
arguments, made at any later moment on the state left by the first, leaves it unchanged again
and answers with the same status and the same body, byte for byte. The attachment name in the
Content-Disposition header is the only part of the response that carries the time of the call:
the whole responses are equal when the clock reads the same. Two calls against worlds with the
same store contents answer alike whatever is on disk. -/
theorem restore_deterministic {σ : Type} (C : Prims σ)
    (lookup : σ → JSString → Except JSString Bytes × σ) (A1 A2 : Ambient) (w : World σ)
    (q : RestoreQuery) (hread : ∀ s cid, lookup s cid = (C.heliaGet s cid, s)) :
    (∀ (other : σ → JSString → Except JSString Bytes × σ),
      (getRestoreSteps C other A1 w q).2.files = w.files ∧
        ((getRestoreSteps C other A1 w q).2.helia = w.helia ∨
          (getRestoreSteps C other A1 w q).2.helia = (other w.helia (q.cid.getD [])).2)) ∧
    (getRestoreSteps C lookup A1 w q).2 = w ∧
    (getRestoreSteps C lookup A2 (getRestoreSteps C lookup A1 w q).2 q).2 = w ∧
    (getRestoreSteps C lookup A1 w q).1.status =
      (getRestoreSteps C lookup A2 (getRestoreSteps C lookup A1 w q).2 q).1.status ∧
    (getRestoreSteps C lookup A1 w q).1.body =
      (getRestoreSteps C lookup A2 (getRestoreSteps C lookup A1 w q).2 q).1.body ∧
    (A1.nowMs = A2.nowMs → (getRestoreSteps C lookup A1 w q).1 =
      (getRestoreSteps C lookup A2 (getRestoreSteps C lookup A1 w q).2 q).1) ∧
    (getRestoreSteps C lookup A1 w q).1 = getRestore C A1 w q ∧
    (∀ w2 : World σ, w2.helia = w.helia →
      (getRestore C A1 w q).status = (getRestore C A2 w2 q).status ∧
        (getRestore C A1 w q).body = (getRestore C A2 w2 q).body) := by
  have hsame : ∀ (A : Ambient), (getRestoreSteps C lookup A w q).2 = w := by
    intro A
    obtain ⟨hf, hh⟩ := getRestoreSteps_state C lookup A w q
    have hh2 : (getRestoreSteps C lookup A w q).2.helia = w.helia := by
      rw [hh, hread]
      split_ifs <;> rfl
    cases hw : (getRestoreSteps C lookup A w q).2 with
    | mk fs s =>
      rw [hw] at hf hh2
      cases w
      simp only at hf hh2
      rw [hf, hh2]
  have hresp : ∀ (A : Ambient), (getRestoreSteps C lookup A w q).1 = getRestore C A w q :=
    fun A => getRestoreSteps_response C lookup A w q (by rw [hread])
  have hdet := getRestore_same_store C A1 A2 w w q rfl
  refine ⟨?_, hsame A1, ?_, ?_, ?_, ?_, hresp A1, ?_⟩
  · intro other
    obtain ⟨hf, hh⟩ := getRestoreSteps_state C other A1 w q
    refine ⟨hf, ?_⟩
    rw [hh]
    split_ifs
    · exact Or.inl rfl
    · exact Or.inr rfl
  · rw [hsame A1, hsame A2]
  · rw [hsame A1, hresp A1, hresp A2]; exact hdet.1
  · rw [hsame A1, hresp A1, hresp A2]; exact hdet.2.1
  · rw [hsame A1, hresp A1, hresp A2]; exact hdet.2.2
  · intro w2 hw2
    have h := getRestore_same_store C A1 A2 w w2 q hw2.symm
    exact ⟨h.1, h.2.1⟩

set_option maxRecDepth 1000000 in
theorem restore_deterministic_witness :
    (getRestoreSteps demoPrims demoLookup demoAmbient demoCipherWorld demoRestoreQuery).1.body =
        .buffer helloBytes ∧
      (getRestoreSteps demoPrims demoLookup demoAmbientLater
        (getRestoreSteps demoPrims demoLookup demoAmbient demoCipherWorld demoRestoreQuery).2
        demoRestoreQuery).2 = demoCipherWorld ∧
      (getRestoreSteps demoPrims demoLookup demoAmbient demoCipherWorld demoRestoreQuery).1.body =
        (getRestoreSteps demoPrims demoLookup demoAmbientLater
          (getRestoreSteps demoPrims demoLookup demoAmbient demoCipherWorld demoRestoreQuery).2
          demoRestoreQuery).1.body :=
  ⟨by decide,
    (restore_deterministic demoPrims demoLookup demoAmbient demoAmbientLater demoCipherWorld
      demoRestoreQuery (fun _ _ => rfl)).2.2.1,
    (restore_deterministic demoPrims demoLookup demoAmbient demoAmbientLater demoCipherWorld
      demoRestoreQuery (fun _ _ => rfl)).2.2.2.2.1⟩

theorem verifyParsed_congr {σ τ : Type} (C1 : Prims σ) (C2 : Prims τ)
    (hver : C1.rsaVerify = C2.rsaVerify) (v : Json) : verifyParsed C1 v = verifyParsed C2 v := by
  cases v with
  | obj m =>
    simp only [verifyParsed, verifySignature, hver]
  | null => rfl
  | bool b => rfl
  | num n => rfl
  | str t => rfl
  | arr l => rfl

theorem getVerifyMetadata_congr {σ τ : Type} (C1 : Prims σ) (C2 : Prims τ)
    (hver : C1.rsaVerify = C2.rsaVerify) (text : Option JSString) :
    getVerifyMetadata C1 text = getVerifyMetadata C2 text := by
  simp only [getVerifyMetadata, verifyParsed_congr C1 C2 hver]

/-- C15. The signature in the metadata of a backup does not depend on the content id. The
signed string is built from `filename`, `timestamp`, `version`, `iv`, `aesKey` and `fileHash`
only: two successful backups that agree on these six values, with the same signing key but any
two stores, whatever CIDs the stores return, produce the same metadata record, signature
included, and `/verifyMetadata`, which is given the record alone and no CID, answers the same
for both. -/
theorem signature_independent_of_cid {σ τ : Type} (C1 : Prims σ) (C2 : Prims τ)
    (A1 A2 : Ambient) (w1 : World σ) (w2 : World τ) (file1 file2 : Option Upload)
    (cid1 cid2 : JSString) (M1 M2 : Json)
    (hsign : C1.rsaSign = C2.rsaSign) (hver : C1.rsaVerify = C2.rsaVerify)
    (hb1 : (postBackup C1 A1 w1 file1).1 = ⟨200, none, .json (backupJson cid1 M1)⟩)
    (hb2 : (postBackup C2 A2 w2 file2).1 = ⟨200, none, .json (backupJson cid2 M2)⟩)
    (hsix : ∀ k ∈ signedKeys, getProp M1.members k = getProp M2.members k) :
    M1 = M2 ∧
      (∃ signature, getProp M1.members (js "signature") = some (.str signature) ∧
        signData C1 (stringify (.obj (deleteProp M1.members (js "signature")))) =
          .ok signature) ∧
      getVerifyMetadata C1 (some (stringify M1)) = getVerifyMetadata C2 (some (stringify M2)) := by
  obtain ⟨up1, P1, key1, iv1, enc1, sig1, _, _, _, _, _, hsig1, hM1, _⟩ :=
    backup_ok_inv C1 A1 w1 file1 cid1 M1 hb1
  obtain ⟨up2, P2, key2, iv2, enc2, sig2, _, _, _, _, _, hsig2, hM2, _⟩ :=
    backup_ok_inv C2 A2 w2 file2 cid2 M2 hb2
  subst hM1 hM2
  simp only [Json.members] at hsix ⊢
  have hf := hsix (js "filename") (by decide)
  have ht := hsix (js "timestamp") (by decide)
  have hi := hsix (js "iv") (by decide)
  have hk := hsix (js "aesKey") (by decide)
  have hh := hsix (js "fileHash") (by decide)
  have e1 : ∀ (f t i k h : JSString) (v : Json),
      getProp (metadataFields f t i k h ++ [(js "signature", v)]) (js "filename") =
        some (.str f) := fun _ _ _ _ _ _ => rfl
  have e2 : ∀ (f t i k h : JSString) (v : Json),
      getProp (metadataFields f t i k h ++ [(js "signature", v)]) (js "timestamp") =
        some (.str t) := fun _ _ _ _ _ _ => rfl
  have e3 : ∀ (f t i k h : JSString) (v : Json),
      getProp (metadataFields f t i k h ++ [(js "signature", v)]) (js "iv") =
        some (.str i) := fun _ _ _ _ _ _ => rfl
  have e4 : ∀ (f t i k h : JSString) (v : Json),
      getProp (metadataFields f t i k h ++ [(js "signature", v)]) (js "aesKey") =
        some (.str k) := fun _ _ _ _ _ _ => rfl
  have e5 : ∀ (f t i k h : JSString) (v : Json),
      getProp (metadataFields f t i k h ++ [(js "signature", v)]) (js "fileHash") =
        some (.str h) := fun _ _ _ _ _ _ => rfl
  rw [e1, e1] at hf
  rw [e2, e2] at ht
  rw [e3, e3] at hi
  rw [e4, e4] at hk
  rw [e5, e5] at hh
  simp only [Option.some.injEq, Json.str.injEq] at hf ht hi hk hh
  rw [← hf, ← ht, ← hi, ← hk, ← hh, ← hsign, hsig1] at hsig2
  cases hsig2
  rw [← hf, ← ht, ← hi, ← hk, ← hh]
  refine ⟨rfl, ⟨hexEncode sig1, getProp_signature _ _ _ _ _ _, ?_⟩,
    getVerifyMetadata_congr C1 C2 hver _⟩
  rw [deleteProp_signature]
  simp only [signData, hsig1]

set_option maxRecDepth 1000000 in
theorem backup_other_store :
    (postBackup demoPrimsOtherStore demoAmbient demoWorld (some demoUpload)).1 =
      ⟨200, none, .json (backupJson (js "bafy-" ++ sha256Hex (helloBytes.map (fun b => b + 10)))
        demoMetadata)⟩ := by decide

set_option maxRecDepth 1000000 in
theorem signature_independent_of_cid_witness :
    demoBackupCid ≠ js "bafy-" ++ sha256Hex (helloBytes.map (fun b => b + 10)) ∧
      getVerifyMetadata demoPrims (some (stringify demoMetadata)) =
        getVerifyMetadata demoPrimsOtherStore (some (stringify demoMetadata)) :=
  ⟨by decide, (signature_independent_of_cid demoPrims demoPrimsOtherStore demoAmbient
    demoAmbient demoWorld demoWorld (some demoUpload) (some demoUpload) demoBackupCid
    (js "bafy-" ++ sha256Hex (helloBytes.map (fun b => b + 10))) demoMetadata demoMetadata
    rfl rfl demo_backup backup_other_store (fun _ _ => rfl)).2.2⟩

set_option maxRecDepth 1000000 in
/-- C16, the code at the failing inputs. `/decryptFile` without `aesKey` and `iv` answers 400
and `/decryptFile` with a key the cipher refuses answers 500, both with the uploaded file still
on disk; `/backup` with a store whose put fails answers 500 with both the uploaded file and the
`_encrypted` file still on disk. The integrity failure of `/decryptFile`, by contrast, removes
the uploaded file before answering. -/
theorem temp_files_left_behind :
    ((postDecryptFile demoPrims demoAmbient demoCipherWorld (some demoCipherUpload)
          none none none).1 =
        ⟨400, none, .json (errorJson "Missing aesKey or iv in request body.")⟩ ∧
      readFileSync (postDecryptFile demoPrims demoAmbient demoCipherWorld
          (some demoCipherUpload) none none none).2.files demoCipherUpload.path =
        .ok (helloBytes.map (fun b => b + 10))) ∧
    ((postDecryptFile demoPrims demoAmbient demoCipherWorld (some demoCipherUpload)
          (some (js "07")) (some (hexEncode (List.replicate 16 3))) none).1 =
        ⟨500, none, .json (errorDetails "Error during file decryption."
          (js "Invalid key length"))⟩ ∧
      readFileSync (postDecryptFile demoPrims demoAmbient demoCipherWorld
          (some demoCipherUpload) (some (js "07")) (some (hexEncode (List.replicate 16 3)))
          none).2.files demoCipherUpload.path =
        .ok (helloBytes.map (fun b => b + 10))) ∧
    ((postBackup demoPrimsFailingStore demoAmbient demoWorld (some demoUpload)).1 =
        ⟨500, none, .json (errorDetails "Error during backup process." (js "put failed"))⟩ ∧
      (postBackup demoPrimsFailingStore demoAmbient demoWorld (some demoUpload)).2.files =
        [(demoUpload.path ++ js "_encrypted", helloBytes.map (fun b => b + 10)),
          (demoUpload.path, helloBytes)]) ∧
    ((postDecryptFile demoPrims demoAmbient demoCipherWorld (some demoCipherUpload)
          (some (hexEncode (List.replicate 32 7))) (some (hexEncode (List.replicate 16 3)))
          (some (js "00"))).1 =
        ⟨400, none, .json (errorJson "File integrity check failed.")⟩ ∧
      (postDecryptFile demoPrims demoAmbient demoCipherWorld (some demoCipherUpload)
          (some (hexEncode (List.replicate 32 7))) (some (hexEncode (List.replicate 16 3)))
          (some (js "00"))).2.files = []) := by
  refine ⟨⟨?_, ?_⟩, ⟨?_, ?_⟩, ⟨?_, ?_⟩, ⟨?_, ?_⟩⟩ <;> decide

theorem falsy_iff (x : Option JSString) : falsy x = true ↔ x = none ∨ x = some [] := by
  cases x with
  | none => simp [falsy]
  | some s => cases s <;> simp [falsy]

/-- C17. `/restore` rejects incomplete requests before doing any work: if any of `cid`, `iv`,
`aesKey` or `expectedHash` is absent or the empty string, it answers status 400 `Missing
required query parameters.`, the same answer for every store and every cipher, so neither is
consulted. Unlike `/restore`, `/decryptFile` does not require `expectedHash`: without it, and
with `aesKey` and `iv` present, it returns the decrypted bytes. -/
theorem restore_rejects_incomplete {σ : Type} (C : Prims σ) (A : Ambient) (w : World σ)
    (q : RestoreQuery)
    (h : ∃ x ∈ [q.cid, q.iv, q.aesKey, q.expectedHash], x = none ∨ x = some []) :
    getRestore C A w q = ⟨400, none, .json (errorJson "Missing required query parameters.")⟩ ∧
    (∀ (τ : Type) (C2 : Prims τ) (A2 : Ambient) (w2 : World τ),
      getRestore C2 A2 w2 q = getRestore C A w q) ∧
    (∀ (up : Upload) (enc D : Bytes) (aesKey iv : Option JSString),
      readFileSync w.files up.path = .ok enc → (falsy aesKey || falsy iv) = false →
      decryptFile C enc (hexDecode (aesKey.getD [])) (iv.getD []) = .ok D →
      (postDecryptFile C A w (some up) aesKey iv none).1 =
        ⟨200, some (attachment "decrypted_" A.nowMs), .buffer D⟩) := by
  have hq : (falsy q.cid || falsy q.iv || falsy q.aesKey || falsy q.expectedHash) = true := by
    obtain ⟨x, hx, hx2⟩ := h
    have hf := (falsy_iff x).2 hx2
    simp only [List.mem_cons, List.mem_singleton, List.not_mem_nil, or_false] at hx
    rcases hx with rfl | rfl | rfl | rfl <;> simp [hf]
  have hall : ∀ (τ : Type) (C2 : Prims τ) (A2 : Ambient) (w2 : World τ),
      getRestore C2 A2 w2 q =
        ⟨400, none, .json (errorJson "Missing required query parameters.")⟩ := by
    intro τ C2 A2 w2
    simp only [getRestore, hq, if_true]
  refine ⟨hall σ C A w, fun τ C2 A2 w2 => by rw [hall τ C2 A2 w2, hall σ C A w], ?_⟩
  intro up enc D aesKey iv hfile hki hdec
  have hul : ∃ fs2, unlinkSync w.files up.path = .ok fs2 := by
    unfold readFileSync at hfile
    unfold unlinkSync
    cases hl : w.files.lookup up.path with
    | none => rw [hl] at hfile; cases hfile
    | some d => exact ⟨_, rfl⟩
  obtain ⟨fs2, hfs2⟩ := hul
  have hn : falsy (none : Option JSString) = true := rfl
  simp [postDecryptFile, hfile, hki, hdec, hn, hfs2]

set_option maxRecDepth 1000000 in
theorem restore_rejects_incomplete_witness :
    getRestore demoPrims demoAmbient demoStore
        ⟨some demoBackupCid, some (hexEncode (List.replicate 16 3)),
          some (hexEncode (List.replicate 32 7)), none⟩ =
      ⟨400, none, .json (errorJson "Missing required query parameters.")⟩ :=
  (restore_rejects_incomplete demoPrims demoAmbient demoStore
    ⟨some demoBackupCid, some (hexEncode (List.replicate 16 3)),
      some (hexEncode (List.replicate 32 7)), none⟩
    ⟨none, by simp, Or.inl rfl⟩).1

theorem unhex_upper_hexDigit (n : Nat) (h : n < 16) :
    unhexUnit (if 97 ≤ hexDigit n ∧ hexDigit n ≤ 102 then hexDigit n - 32 else hexDigit n) =
      some n := by
  interval_cases n <;> rfl

/-- A hex encoding in capital letters decodes to the same bytes. -/
theorem hexDecode_upperHex (b : Bytes) : hexDecode (upperHex (hexEncode b)) = b := by
  induction b with
  | nil => rfl
  | cons x xs ih =>
    have h1 := unhex_upper_hexDigit (x.val / 16) (by omega)
    have h2 := unhex_upper_hexDigit (x.val % 16) (by omega)
    simp only [upperHex, hexEncode, List.map_cons, hexDecode, h1, h2]
    rw [show List.map (fun c => if 97 ≤ c ∧ c ≤ 102 then c - 32 else c) (hexEncode xs) =
      upperHex (hexEncode xs) from rfl, ih]
    congr 1
    exact (byte_of_nibbles x _ _ (by omega) (by omega)).2 ⟨rfl, rfl⟩

theorem upperHex_ne_nil (s : JSString) (h : s ≠ []) : upperHex s ≠ [] := by
  cases s with
  | nil => exact absurd rfl h
  | cons c t => simp [upperHex]

/-- C18. The integrity check of `/restore` and `/decryptFile` compares hex strings, not digest
bytes. When decryption succeeds with bytes `B`, `/restore` sends `B` if and only if
`expectedHash` is, character for character, the lowercase hex SHA-256 of `B`, and so does
`/decryptFile` whenever an `expectedHash` is supplied; any other supplied `expectedHash` is
answered with the integrity failure. In particular the capital-letter hex form of the digest,
which decodes to the same 32 bytes, is rejected as soon as it differs from the lowercase
form. -/
theorem integrity_check_compares_hex_text {σ : Type} (C : Prims σ) (A A2 : Ambient)
    (w : World σ) (up : Upload) (cid aesKey iv : JSString) (stored B : Bytes)
    (hcid : cid ≠ []) (hkey : aesKey ≠ []) (hiv : iv ≠ [])
    (hget : C.heliaGet w.helia cid = .ok stored)
    (hfile : readFileSync w.files up.path = .ok stored)
    (hdec : decryptFile C stored (hexDecode aesKey) iv = .ok B) :
    (∀ expectedHash : Option JSString,
      getRestore C A w ⟨some cid, some iv, some aesKey, expectedHash⟩ =
          ⟨200, some (attachment "restored_" A.nowMs), .buffer B⟩ ↔
        expectedHash = some (sha256Hex B)) ∧
    (∀ e : JSString, e ≠ [] →
      ((postDecryptFile C A2 w (some up) (some aesKey) (some iv) (some e)).1 =
          ⟨200, some (attachment "decrypted_" A2.nowMs), .buffer B⟩ ↔
        e = sha256Hex B)) ∧
    (∀ e : JSString, e ≠ [] → e ≠ sha256Hex B →
      getRestore C A w ⟨some cid, some iv, some aesKey, some e⟩ =
          ⟨400, none, .json (errorJson "File integrity check failed.")⟩ ∧
        (postDecryptFile C A2 w (some up) (some aesKey) (some iv) (some e)).1 =
          ⟨400, none, .json (errorJson "File integrity check failed.")⟩) ∧
    (hexDecode (upperHex (sha256Hex B)) = SHA256.digest B ∧
      (upperHex (sha256Hex B) ≠ sha256Hex B →
        getRestore C A w ⟨some cid, some iv, some aesKey, some (upperHex (sha256Hex B))⟩ =
            ⟨400, none, .json (errorJson "File integrity check failed.")⟩ ∧
          (postDecryptFile C A2 w (some up) (some aesKey) (some iv)
              (some (upperHex (sha256Hex B)))).1 =
            ⟨400, none, .json (errorJson "File integrity check failed.")⟩)) := by
  have hc : falsy (some cid) = false := falsy_some cid hcid
  have hk : falsy (some aesKey) = false := falsy_some aesKey hkey
  have hi : falsy (some iv) = false := falsy_some iv hiv
  have hul : ∃ fs2, unlinkSync w.files up.path = .ok fs2 := by
    unfold readFileSync at hfile
    unfold unlinkSync
    cases hl : w.files.lookup up.path with
    | none => rw [hl] at hfile; cases hfile
    | some d => exact ⟨_, rfl⟩
  obtain ⟨fs2, hfs2⟩ := hul
  -- the two handlers on a supplied hash
  have hr : ∀ e : JSString, e ≠ [] →
      getRestore C A w ⟨some cid, some iv, some aesKey, some e⟩ =
        if sha256Hex B = e then ⟨200, some (attachment "restored_" A.nowMs), .buffer B⟩
        else ⟨400, none, .json (errorJson "File integrity check failed.")⟩ := by
    intro e he
    have hef : falsy (some e) = false := falsy_some e he
    by_cases hh : sha256Hex B = e
    · simp only [getRestore, hc, hi, hk, hef, Bool.or_self, Bool.false_eq_true, if_false,
        getFileFromHelia, Option.getD_some, hget, hdec, hh, ne_eq, not_true_eq_false, if_true]
    · simp only [getRestore, hc, hi, hk, hef, Bool.or_self, Bool.false_eq_true, if_false,
        getFileFromHelia, Option.getD_some, hget, hdec, hh, ne_eq, not_false_eq_true, if_true]
  have hd : ∀ e : JSString, e ≠ [] →
      (postDecryptFile C A2 w (some up) (some aesKey) (some iv) (some e)).1 =
        if sha256Hex B = e then ⟨200, some (attachment "decrypted_" A2.nowMs), .buffer B⟩
        else ⟨400, none, .json (errorJson "File integrity check failed.")⟩ := by
    intro e he
    have hef : falsy (some e) = false := falsy_some e he
    by_cases hh : sha256Hex B = e
    · simp [postDecryptFile, hfile, hk, hi, hdec, hef, hh, hfs2]
    · simp [postDecryptFile, hfile, hk, hi, hdec, hef, hh, hfs2]
  have hrej : ∀ e : JSString, e ≠ [] → e ≠ sha256Hex B →
      getRestore C A w ⟨some cid, some iv, some aesKey, some e⟩ =
          ⟨400, none, .json (errorJson "File integrity check failed.")⟩ ∧
        (postDecryptFile C A2 w (some up) (some aesKey) (some iv) (some e)).1 =
          ⟨400, none, .json (errorJson "File integrity check failed.")⟩ := by
    intro e he hne
    have hne2 : ¬ sha256Hex B = e := fun h => hne h.symm
    rw [hr e he, hd e he, if_neg hne2, if_neg hne2]
    exact ⟨rfl, rfl⟩
  have hnn : sha256Hex B ≠ [] := ne_nil_of_length _ 63 (sha256Hex_length B)
  refine ⟨?_, ?_, hrej, ?_, fun hup => hrej _ (upperHex_ne_nil _ hnn) hup⟩
  · intro expectedHash
    cases expectedHash with
    | none =>
      have hn : falsy (none : Option JSString) = true := rfl
      simp [getRestore, hn]
    | some e =>
      by_cases he : e = []
      · subst he
        have hn : falsy (some ([] : JSString)) = true := rfl
        constructor
        · intro h
          simp [getRestore, hn] at h
        · intro h
          exact absurd (Option.some.inj h).symm hnn
      · rw [hr e he]
        by_cases hh : sha256Hex B = e
        · simp [hh]
        · simp only [hh, if_false, Option.some.injEq]
          constructor
          · intro h; simp at h
          · intro h; exact absurd h.symm hh
  · intro e he
    rw [hd e he]
    by_cases hh : sha256Hex B = e
    · simp [hh]
    · simp only [hh, if_false]
      constructor
      · intro h; simp at h
      · intro h; exact absurd h.symm hh
  · exact hexDecode_upperHex _

set_option maxRecDepth 1000000 in
theorem integrity_check_compares_hex_text_witness :
    upperHex (sha256Hex helloBytes) = demoUpperHash ∧
      getRestore demoPrims demoAmbient demoCipherWorld
          ⟨some demoBackupCid, some (hexEncode (List.replicate 16 3)),
            some (hexEncode (List.replicate 32 7)), some (upperHex (sha256Hex helloBytes))⟩ =
        ⟨400, none, .json (errorJson "File integrity check failed.")⟩ :=
  ⟨by decide, ((integrity_check_compares_hex_text demoPrims demoAmbient demoAmbient
    demoCipherWorld demoCipherUpload demoBackupCid (hexEncode (List.replicate 32 7))
    (hexEncode (List.replicate 16 3)) (helloBytes.map (fun b => b + 10)) helloBytes
    (by decide) (by decide) (by decide) (by decide) (by decide) (by decide)).2.2.2.2
    (by decide)).1⟩
